import Mathlib

set_option linter.unusedVariables false

/-!
Verification of the `lang` front end (lexical scanner in `src/lexer.rs`,
recursive-descent parser in `src/parser.rs`) against its specification.

The Rust code is shallowly embedded: the character stream is a `List Char`,
the mutable `Lexer` / `Parser` structs become explicit state records, Rust
`Result` values become explicit sum types, and a Rust panic (the `unwrap`
on integer parsing, or an out-of-bounds index into the token vector) is the
explicit `crash` outcome, so that uncontrolled termination is observable.
`u32`/`usize` counters are modelled as `Nat` (no claim depends on wrap-around,
which would require inputs of length `2^32`). Loops whose progress is the
consumption of characters are phrased as structural recursion over the list
of not-yet-consumed characters; the top-level scan loop and the mutually
recursive parser productions use a fuel parameter, together with proofs that
the fuel supplied by the entry points is always sufficient.
-/

abbrev Str := String

/-- Token kinds, from `TokenType` in `src/lib.rs` together with the
`LeftParen`/`RightParen`/`Eof` variants used by `src/lexer.rs` and the
`True`/`False` variants used by `src/parser.rs` (the spec's §3 vocabulary). -/
inductive TokenType where
  | LeftParen
  | RightParen
  | Plus
  | Minus
  | Star
  | Slash
  | Bang
  | BangEqual
  | EqualEqual
  | Greater
  | GreaterEqual
  | Less
  | LessEqual
  | And
  | Or
  | String (s : Str)
  | Number (n : Int)
  | True
  | False
  | Eof
  deriving DecidableEq

/-- `SyntaxError { message, line, column }`, shared by scanner and parser. -/
structure SyntaxError where
  message : Str
  line : Nat
  column : Nat
  deriving DecidableEq

/-- `Token` from `src/lib.rs`. -/
structure Token where
  token_type : TokenType
  lexeme : Str
  line : Nat
  column : Nat
  deriving DecidableEq

/-- The `Lexer` struct of `src/lexer.rs`: the peekable character iterator is
the list of not-yet-consumed characters. -/
structure Lexer where
  tokens : List Token
  current_lexeme : List Char
  chars : List Char
  line : Nat
  column : Nat
  token_start_line : Nat
  token_start_column : Nat
  deriving DecidableEq

namespace Lexer

/-- `Lexer::new_error` (src/lexer.rs:16): an error positioned at the start of
the current token. -/
def new_error (st : Lexer) (message : Str) : SyntaxError :=
  { message := message, line := st.token_start_line, column := st.token_start_column }

/-- `Lexer::track_line_column` (src/lexer.rs:34). -/
def track_line_column (st : Lexer) (character : Char) : Lexer :=
  if character = '\n' then { st with line := st.line + 1, column := 0 }
  else if character = '\t' then { st with column := st.column + 4 }
  else { st with column := st.column + 1 }

/-- The state change of `Lexer::consume` (src/lexer.rs:49) in the case where
the character stream is `c :: rest`. -/
def consumeStep (st : Lexer) (c : Char) (rest : List Char) : Lexer :=
  let st1 := track_line_column { st with chars := rest } c
  { st1 with current_lexeme := st1.current_lexeme ++ [c] }

/-- `Lexer::consume` (src/lexer.rs:49). -/
def consume (st : Lexer) : Option (Char × Lexer) :=
  match st.chars with
  | [] => none
  | c :: rest => some (c, consumeStep st c rest)

/-- `Lexer::consume_if` (src/lexer.rs:24): peek, and consume only on a match. -/
def consume_if (st : Lexer) (ch : Char) : Bool × Lexer :=
  match st.chars with
  | c :: rest => if c = ch then (true, consumeStep st c rest) else (false, st)
  | [] => (false, st)

/-- `Lexer::add_token` (src/lexer.rs:157): push a token positioned at the
recorded token start, taking the accumulated lexeme. -/
def add_token (st : Lexer) (token_type : TokenType) : Lexer :=
  { st with
    tokens := st.tokens ++
      [{ token_type := token_type, lexeme := String.mk st.current_lexeme,
         line := st.token_start_line, column := st.token_start_column }],
    current_lexeme := [] }

/-- The string-literal loop of `next_token` (src/lexer.rs:106), phrased by
structural recursion over the not-yet-consumed characters (the first
argument is always `st.chars`; `consumeStep` re-establishes this): consume
until a closing quote (`true`) or end of input (`false`). -/
def string_go : List Char → Lexer → Bool × Lexer
  | [], st => (false, st)
  | c :: rest, st =>
    if c = '"' then (true, consumeStep st c rest)
    else string_go rest (consumeStep st c rest)

/-- The string-literal loop of `next_token`, started on the current stream. -/
def string_loop (st : Lexer) : Bool × Lexer :=
  string_go st.chars st

/-- The digit-consuming loop of `next_token` (src/lexer.rs:123): peek, and
consume while the next character is a decimal digit. -/
def number_go : List Char → Lexer → Lexer
  | [], st => st
  | c :: rest, st =>
    if c.isDigit then number_go rest (consumeStep st c rest) else st

/-- The digit-consuming loop of `next_token`, started on the current stream. -/
def number_loop (st : Lexer) : Lexer :=
  number_go st.chars st

/-- The continuation-character test of the identifier loop
(`is_ascii_alphanumeric() || '_'`, src/lexer.rs:136). -/
def identChar (c : Char) : Bool :=
  c.isAlphanum || c = '_'

/-- The identifier-consuming loop of `next_token` (src/lexer.rs:135): peek,
and consume while the next character is an ASCII letter, digit or `_`. -/
def identifier_go : List Char → Lexer → Lexer
  | [], st => st
  | c :: rest, st =>
    if identChar c then identifier_go rest (consumeStep st c rest) else st

/-- The identifier-consuming loop of `next_token`, started on the current
stream. -/
def identifier_loop (st : Lexer) : Lexer :=
  identifier_go st.chars st

/-- The numeric value of an all-digit lexeme, as computed by
`current_lexeme.parse::<i32>()` when it succeeds. -/
def digitsToNat (cs : List Char) : Nat :=
  cs.foldl (fun acc c => acc * 10 + (c.toNat - 48)) 0

/-- Result of `Lexer::next_token`: `ok more st` is `Ok(more)` together with
the updated state, `err` is `Err`, and `crash` models the `unwrap` panic when
a number literal does not fit in `i32`. -/
inductive LexResult where
  | ok (more : Bool) (st : Lexer)
  | err (e : SyntaxError)
  | crash
  deriving DecidableEq

/-- The `match character { ... }` dispatch of `next_token` (src/lexer.rs:71),
applied to the state just after the character `c` was consumed. -/
def dispatch (c : Char) (st : Lexer) : LexResult :=
  if c = '(' then .ok true (st.add_token .LeftParen)
  else if c = ')' then .ok true (st.add_token .RightParen)
  else if c = '+' then .ok true (st.add_token .Plus)
  else if c = '-' then .ok true (st.add_token .Minus)
  else if c = '*' then .ok true (st.add_token .Star)
  else if c = '/' then .ok true (st.add_token .Slash)
  else if c = '!' then
    match consume_if st '=' with
    | (true, st) => .ok true (st.add_token .BangEqual)
    | (false, st) => .ok true (st.add_token .Bang)
  else if c = '>' then
    match consume_if st '=' with
    | (true, st) => .ok true (st.add_token .GreaterEqual)
    | (false, st) => .ok true (st.add_token .Greater)
  else if c = '<' then
    match consume_if st '=' with
    | (true, st) => .ok true (st.add_token .LessEqual)
    | (false, st) => .ok true (st.add_token .Less)
  else if c = ' ' then .ok true st
  else if c = '\r' then .ok true st
  else if c = '\t' then .ok true st
  else if c = '\n' then .ok true st
  else if c = '"' then
    match string_loop st with
    | (false, st) => .err (st.new_error "Invalid String")
    | (true, st) =>
      .ok true (st.add_token (.String (String.mk ((st.current_lexeme.drop 1).dropLast))))
  else if c.isDigit then
    if digitsToNat (number_loop st).current_lexeme ≤ 2147483647 then
      .ok true ((number_loop st).add_token
        (.Number (digitsToNat (number_loop st).current_lexeme : Int)))
    else .crash
  else if c.isAlpha || c = '_' then
    if (identifier_loop st).current_lexeme = "and".data then
      .ok true ((identifier_loop st).add_token .And)
    else if (identifier_loop st).current_lexeme = "or".data then
      .ok true ((identifier_loop st).add_token .Or)
    else .ok true (identifier_loop st)
  else .err (st.new_error ("Unexpected Token: " ++ String.mk [c]))

/-- The bookkeeping at the top of `next_token` (src/lexer.rs:62): clear the
lexeme and record the start position of the upcoming token. -/
def start_token (st : Lexer) : Lexer :=
  { st with current_lexeme := [], token_start_line := st.line,
            token_start_column := st.column + 1 }

/-- `Lexer::next_token` (src/lexer.rs:61). -/
def next_token (st0 : Lexer) : LexResult :=
  match (start_token st0).chars with
  | [] => .ok false (start_token st0)
  | c :: rest => dispatch c (consumeStep (start_token st0) c rest)

/-- Result of the whole `scan`. `crash` models a Rust panic. -/
inductive ScanResult where
  | ok (tokens : List Token)
  | err (e : SyntaxError)
  | crash
  deriving DecidableEq

/-- The `loop` of `scan` (src/lexer.rs:180) followed by the final `Eof` push,
with a fuel parameter for structural termination.  `scan` supplies
`chars.length + 1` fuel, which is always sufficient since each `Ok(true)`
iteration consumes at least one character. -/
def scanGo : Nat → Lexer → ScanResult
  | 0, _ => .crash
  | fuel + 1, st =>
    match next_token st with
    | .ok true st' => scanGo fuel st'
    | .ok false st' =>
      .ok (st'.tokens ++
        [{ token_type := .Eof, lexeme := "", line := st'.line, column := st'.column }])
    | .err e => .err e
    | .crash => .crash

/-- The sequence of token kinds of a successful scan (`none` on failure). -/
def kindsOf : ScanResult → Option (List TokenType)
  | .ok ts => some (ts.map Token.token_type)
  | _ => none

/-- Two lexer states that agree on everything the rest of the scan's emitted
token kinds depend on: stream, lexeme buffer, and already-emitted kinds. -/
def SameLex (a b : Lexer) : Prop :=
  a.chars = b.chars ∧ a.current_lexeme = b.current_lexeme ∧
    a.tokens.map Token.token_type = b.tokens.map Token.token_type

/-- Two lexer states that agree on the stream and the emitted kinds (the
lexeme buffer is cleared by `next_token` before it is read). -/
def SameScan (a b : Lexer) : Prop :=
  a.chars = b.chars ∧ a.tokens.map Token.token_type = b.tokens.map Token.token_type

end Lexer

/-- `scan` (src/lexer.rs:169), the scanner's entry point. -/
def scan (source_code : Str) : Lexer.ScanResult :=
  Lexer.scanGo (source_code.data.length + 1)
    { tokens := [], current_lexeme := [], chars := source_code.data,
      line := 1, column := 0, token_start_line := 1, token_start_column := 1 }

/-- `UnaryOp`, used by `src/parser.rs` (declaration not in the provided
sources; variants per spec §3 and their uses in `unary`). -/
inductive UnaryOp where
  | Negate
  | Not
  deriving DecidableEq

/-- `BinaryOp`, used by `src/parser.rs` (declaration not in the provided
sources; variants per spec §3 and their uses in `term`/`factor`). -/
inductive BinaryOp where
  | Add
  | Sub
  | Mul
  | Div
  | Less
  | LessEqual
  | Greater
  | GreaterEqual
  | Equal
  | NotEqual
  | And
  | Or
  deriving DecidableEq

/-- The `Expr` AST (spec §3; constructors as used by `src/parser.rs`). -/
inductive Expr where
  | Number (n : Int)
  | String (s : Str)
  | Bool (b : Bool)
  | Unary (operator : UnaryOp) (operand : Expr)
  | Binary (left : Expr) (operator : BinaryOp) (right : Expr)
  | Grouping (inner : Expr)
  deriving DecidableEq

/-- The `Parser` struct of `src/parser.rs`. -/
structure Parser where
  tokens : List Token
  current : Nat
  deriving DecidableEq

namespace Parser

/-- Discriminant index of a token kind, for `std::mem::discriminant`. -/
def kindIdx : TokenType → Nat
  | .LeftParen => 0
  | .RightParen => 1
  | .Plus => 2
  | .Minus => 3
  | .Star => 4
  | .Slash => 5
  | .Bang => 6
  | .BangEqual => 7
  | .EqualEqual => 8
  | .Greater => 9
  | .GreaterEqual => 10
  | .Less => 11
  | .LessEqual => 12
  | .And => 13
  | .Or => 14
  | .String _ => 15
  | .Number _ => 16
  | .True => 17
  | .False => 18
  | .Eof => 19

/-- `std::mem::discriminant` equality on token kinds (src/parser.rs:128):
structural-shape equality ignoring carried values. -/
def sameKind (a b : TokenType) : Bool :=
  kindIdx a = kindIdx b

/-- `Parser::peek` (src/parser.rs:143); `none` models the index panic. -/
def peek (st : Parser) : Option Token :=
  st.tokens[st.current]?

/-- `Parser::is_at_end` (src/parser.rs:139). -/
def is_at_end (st : Parser) : Option Bool :=
  (peek st).map fun t => decide (t.token_type = TokenType.Eof)

/-- `Parser::previous` (src/parser.rs:147); `none` models the panic when
`current` is `0` (usize underflow) or the index is out of bounds. -/
def previous (st : Parser) : Option Token :=
  if st.current = 0 then none else st.tokens[st.current - 1]?

/-- `Parser::advance` (src/parser.rs:132). -/
def advance (st : Parser) : Option (Token × Parser) :=
  match is_at_end st with
  | none => none
  | some b =>
    let st' := if b then st else { st with current := st.current + 1 }
    (previous st').map fun t => (t, st')

/-- `Parser::check` (src/parser.rs:124). -/
def check (st : Parser) (token_type : TokenType) : Option Bool :=
  match is_at_end st with
  | none => none
  | some true => some false
  | some false =>
    (st.tokens[st.current]?).map fun t => sameKind t.token_type token_type

/-- `Parser::match_tokens` (src/parser.rs:114). -/
def match_tokens (st : Parser) (types : List TokenType) : Option (Bool × Parser) :=
  match types with
  | [] => some (false, st)
  | t :: rest =>
    match check st t with
    | none => none
    | some true =>
      match advance st with
      | none => none
      | some (_, st') => some (true, st')
    | some false => match_tokens st rest

/-- `Parser::error` (src/parser.rs:158): an error at the current token. -/
def error (st : Parser) (message : Str) : Option SyntaxError :=
  (peek st).map fun t => { message := message, line := t.line, column := t.column }

/-- `Parser::consume` (src/parser.rs:151). -/
def consume (st : Parser) (token_type : TokenType) (message : Str) :
    Option (Except SyntaxError (Token × Parser)) :=
  match check st token_type with
  | none => none
  | some true =>
    match advance st with
    | none => none
    | some (t, st') => some (.ok (t, st'))
  | some false =>
    match error st message with
    | none => none
    | some e => some (.error e)

/-- The `{:?}` (Debug) rendering of a token kind, used by the parser's
"Unexpected token" message (src/parser.rs:110). -/
def debugFmt : TokenType → Str
  | .LeftParen => "LeftParen"
  | .RightParen => "RightParen"
  | .Plus => "Plus"
  | .Minus => "Minus"
  | .Star => "Star"
  | .Slash => "Slash"
  | .Bang => "Bang"
  | .BangEqual => "BangEqual"
  | .EqualEqual => "EqualEqual"
  | .Greater => "Greater"
  | .GreaterEqual => "GreaterEqual"
  | .Less => "Less"
  | .LessEqual => "LessEqual"
  | .And => "And"
  | .Or => "Or"
  | .String s => "String(\"" ++ s ++ "\")"
  | .Number n => "Number(" ++ toString n ++ ")"
  | .True => "True"
  | .False => "False"
  | .Eof => "Eof"

/-- Result of a parser production: `ok` with the updated cursor state, `err`
for a returned `SyntaxError`, `crash` for an out-of-bounds index panic
(including the `unreachable!` arms), and `outOfFuel` when the structural fuel
runs out — shown unreachable for the fuel supplied by `parse`. -/
inductive POut where
  | ok (e : Expr) (st : Parser)
  | err (e : SyntaxError)
  | crash
  | outOfFuel
  deriving DecidableEq

mutual

/-- `Parser::expression` (src/parser.rs:17). -/
def expression : Nat → Parser → POut
  | 0, _ => .outOfFuel
  | fuel + 1, st => term fuel st

/-- `Parser::term` (src/parser.rs:21): a `factor`, then the fold loop. -/
def term : Nat → Parser → POut
  | 0, _ => .outOfFuel
  | fuel + 1, st =>
    match factor fuel st with
    | .ok e st' => term_loop fuel e st'
    | r => r

/-- The `while self.match_tokens(&[Plus, Minus])` loop of `term`. -/
def term_loop : Nat → Expr → Parser → POut
  | 0, _, _ => .outOfFuel
  | fuel + 1, e, st =>
    match match_tokens st [.Plus, .Minus] with
    | none => .crash
    | some (false, st') => .ok e st'
    | some (true, st') =>
      match previous st' with
      | none => .crash
      | some tok =>
        match (match tok.token_type with
               | .Plus => some BinaryOp.Add
               | .Minus => some BinaryOp.Sub
               | _ => none) with
        | none => .crash
        | some operator =>
          match factor fuel st' with
          | .ok right st'' => term_loop fuel (.Binary e operator right) st''
          | r => r

/-- `Parser::factor` (src/parser.rs:41): a `unary`, then the fold loop. -/
def factor : Nat → Parser → POut
  | 0, _ => .outOfFuel
  | fuel + 1, st =>
    match unary fuel st with
    | .ok e st' => factor_loop fuel e st'
    | r => r

/-- The `while self.match_tokens(&[Star, Slash])` loop of `factor`. -/
def factor_loop : Nat → Expr → Parser → POut
  | 0, _, _ => .outOfFuel
  | fuel + 1, e, st =>
    match match_tokens st [.Star, .Slash] with
    | none => .crash
    | some (false, st') => .ok e st'
    | some (true, st') =>
      match previous st' with
      | none => .crash
      | some tok =>
        match (match tok.token_type with
               | .Star => some BinaryOp.Mul
               | .Slash => some BinaryOp.Div
               | _ => none) with
        | none => .crash
        | some operator =>
          match unary fuel st' with
          | .ok right st'' => factor_loop fuel (.Binary e operator right) st''
          | r => r

/-- `Parser::unary` (src/parser.rs:61): right-recursive prefix operators. -/
def unary : Nat → Parser → POut
  | 0, _ => .outOfFuel
  | fuel + 1, st =>
    match match_tokens st [.Minus, .Bang] with
    | none => .crash
    | some (true, st') =>
      match previous st' with
      | none => .crash
      | some tok =>
        match (match tok.token_type with
               | .Minus => some UnaryOp.Negate
               | .Bang => some UnaryOp.Not
               | _ => none) with
        | none => .crash
        | some operator =>
          match unary fuel st' with
          | .ok operand st'' => .ok (.Unary operator operand) st''
          | r => r
    | some (false, st') => primary fuel st'

/-- `Parser::primary` (src/parser.rs:78). -/
def primary : Nat → Parser → POut
  | 0, _ => .outOfFuel
  | fuel + 1, st =>
    match is_at_end st with
    | none => .crash
    | some true =>
      match error st "Unexpected end of input" with
      | none => .crash
      | some e => .err e
    | some false =>
      match st.tokens[st.current]? with
      | none => .crash
      | some token =>
        match token.token_type with
        | .Number n =>
          match advance st with
          | none => .crash
          | some (_, st') => .ok (.Number n) st'
        | .String s =>
          match advance st with
          | none => .crash
          | some (_, st') => .ok (.String s) st'
        | .True =>
          match advance st with
          | none => .crash
          | some (_, st') => .ok (.Bool true) st'
        | .False =>
          match advance st with
          | none => .crash
          | some (_, st') => .ok (.Bool false) st'
        | .LeftParen =>
          match advance st with
          | none => .crash
          | some (_, st') =>
            match expression fuel st' with
            | .ok e st'' =>
              match consume st'' .RightParen "Expected ')' after expression" with
              | none => .crash
              | some (.ok (_, st3)) => .ok (.Grouping e) st3
              | some (.error er) => .err er
            | r => r
        | _ =>
          match error st ("Unexpected token: " ++ debugFmt token.token_type) with
          | none => .crash
          | some e => .err e

end

/-- The number of tokens not yet passed by the cursor. -/
def rem (st : Parser) : Nat :=
  st.tokens.length - st.current

/-- Well-formedness of a parser state: the cursor is in bounds and the token
sequence ends in the `Eof` sentinel (the Scanner's output invariant). -/
def Wf (st : Parser) : Prop :=
  st.current < st.tokens.length ∧
    ∃ last, st.tokens.getLast? = some last ∧ last.token_type = .Eof

/-- A production either returns `Ok` — with the same token list, a strictly
advanced in-bounds cursor, and well-formedness preserved — or returns `Err`:
never a panic, never fuel exhaustion. -/
def GoodS (st : Parser) (r : POut) : Prop :=
  (∃ e st', r = .ok e st' ∧ st'.tokens = st.tokens ∧ st.current < st'.current ∧ Wf st') ∨
  (∃ er, r = .err er)

/-- Like `GoodS` for the binary-operator fold loops, whose cursor may stay
put (zero iterations). -/
def GoodL (st : Parser) (r : POut) : Prop :=
  (∃ e st', r = .ok e st' ∧ st'.tokens = st.tokens ∧ st.current ≤ st'.current ∧ Wf st') ∨
  (∃ er, r = .err er)

end Parser

/-- Result of `Parser::parse`, with the cursor state dropped as in the Rust
signature `parse(&mut self) -> Result<Expr, SyntaxError>`. -/
inductive ParseResult where
  | ok (e : Expr)
  | err (e : SyntaxError)
  | crash
  | outOfFuel
  deriving DecidableEq

/-- `Parser::new` followed by `Parser::parse` (src/parser.rs:9,13).  The fuel
`6 * tokens.length + 6` is shown sufficient for every well-formed token
sequence by the totality theorem below. -/
def parse (tokens : List Token) : ParseResult :=
  match Parser.expression (6 * tokens.length + 6) { tokens := tokens, current := 0 } with
  | .ok e _ => .ok e
  | .err e => .err e
  | .crash => .crash
  | .outOfFuel => .outOfFuel

/-- The scan-then-parse pipeline of `src/main.rs` and the REPL. -/
def scanParse (source : Str) : ParseResult :=
  match scan source with
  | .ok ts => parse ts
  | .err e => .err e
  | .crash => .crash

/-! ## Character-class facts -/

theorem alpha_not_digit {c : Char} (h : c.isAlpha = true) : c.isDigit = false := by
  simp only [Char.isAlpha, Char.isUpper, Char.isLower, Char.isDigit, Bool.or_eq_true,
    Bool.and_eq_true, decide_eq_true_iff, ge_iff_le] at h
  simp only [Char.isDigit, Bool.and_eq_false_iff, decide_eq_false_iff_not, ge_iff_le]
  rcases h with ⟨h1, h2⟩ | ⟨h1, h2⟩
  · right
    intro hle
    have h1n : (65 : UInt32).toNat ≤ c.val.toNat := h1
    have h2n : c.val.toNat ≤ (57 : UInt32).toNat := hle
    have e1 : (65 : UInt32).toNat = 65 := by decide
    have e2 : (57 : UInt32).toNat = 57 := by decide
    rw [e1] at h1n
    rw [e2] at h2n
    omega
  · right
    intro hle
    have h1n : (97 : UInt32).toNat ≤ c.val.toNat := h1
    have h2n : c.val.toNat ≤ (57 : UInt32).toNat := hle
    have e1 : (97 : UInt32).toNat = 97 := by decide
    have e2 : (57 : UInt32).toNat = 57 := by decide
    rw [e1] at h1n
    rw [e2] at h2n
    omega

theorem digit_ne_chars {c : Char} (h : c.isDigit = true) :
    c ≠ '(' ∧ c ≠ ')' ∧ c ≠ '+' ∧ c ≠ '-' ∧ c ≠ '*' ∧ c ≠ '/' ∧ c ≠ '!' ∧
    c ≠ '>' ∧ c ≠ '<' ∧ c ≠ ' ' ∧ c ≠ '\r' ∧ c ≠ '\t' ∧ c ≠ '\n' ∧ c ≠ '"' := by
  refine ⟨?_, ?_, ?_, ?_, ?_, ?_, ?_, ?_, ?_, ?_, ?_, ?_, ?_, ?_⟩ <;>
    (rintro rfl; exact absurd h (by decide))

theorem identFirst_ne_chars {c : Char} (h : (c.isAlpha || decide (c = '_')) = true) :
    (c ≠ '(' ∧ c ≠ ')' ∧ c ≠ '+' ∧ c ≠ '-' ∧ c ≠ '*' ∧ c ≠ '/' ∧ c ≠ '!' ∧
     c ≠ '>' ∧ c ≠ '<' ∧ c ≠ ' ' ∧ c ≠ '\r' ∧ c ≠ '\t' ∧ c ≠ '\n' ∧ c ≠ '"') ∧
    c.isDigit = false := by
  rw [Bool.or_eq_true, decide_eq_true_iff] at h
  rcases h with h | rfl
  · refine ⟨⟨?_, ?_, ?_, ?_, ?_, ?_, ?_, ?_, ?_, ?_, ?_, ?_, ?_, ?_⟩, alpha_not_digit h⟩ <;>
      (rintro rfl; exact absurd h (by decide))
  · exact ⟨by decide, by decide⟩

theorem identChar_ne_nl_tab {c : Char} (h : Lexer.identChar c = true) :
    c ≠ '\n' ∧ c ≠ '\t' := by
  refine ⟨?_, ?_⟩ <;> (rintro rfl; exact absurd h (by decide))

theorem digit_ne_nl_tab {c : Char} (h : c.isDigit = true) :
    c ≠ '\n' ∧ c ≠ '\t' := by
  refine ⟨?_, ?_⟩ <;> (rintro rfl; exact absurd h (by decide))

namespace Lexer

/-! ## Field bookkeeping lemmas -/

@[simp] theorem consumeStep_chars (st : Lexer) (c : Char) (rest : List Char) :
    (consumeStep st c rest).chars = rest := by
  simp only [consumeStep, track_line_column]
  split
  · rfl
  · split <;> rfl

@[simp] theorem consumeStep_tokens (st : Lexer) (c : Char) (rest : List Char) :
    (consumeStep st c rest).tokens = st.tokens := by
  simp only [consumeStep, track_line_column]
  split
  · rfl
  · split <;> rfl

@[simp] theorem consumeStep_token_start_line (st : Lexer) (c : Char) (rest : List Char) :
    (consumeStep st c rest).token_start_line = st.token_start_line := by
  simp only [consumeStep, track_line_column]
  split
  · rfl
  · split <;> rfl

@[simp] theorem consumeStep_token_start_column (st : Lexer) (c : Char) (rest : List Char) :
    (consumeStep st c rest).token_start_column = st.token_start_column := by
  simp only [consumeStep, track_line_column]
  split
  · rfl
  · split <;> rfl

@[simp] theorem consumeStep_current_lexeme (st : Lexer) (c : Char) (rest : List Char) :
    (consumeStep st c rest).current_lexeme = st.current_lexeme ++ [c] := by
  simp only [consumeStep, track_line_column]
  split
  · rfl
  · split <;> rfl

theorem consumeStep_plain {c : Char} (h1 : c ≠ '\n') (h2 : c ≠ '\t')
    (st : Lexer) (rest : List Char) :
    consumeStep st c rest =
      { st with chars := rest, current_lexeme := st.current_lexeme ++ [c],
                column := st.column + 1 } := by
  simp [consumeStep, track_line_column, h1, h2]

@[simp] theorem add_token_chars (st : Lexer) (t : TokenType) :
    (add_token st t).chars = st.chars := rfl

@[simp] theorem add_token_tokens (st : Lexer) (t : TokenType) :
    (add_token st t).tokens = st.tokens ++
      [{ token_type := t, lexeme := String.mk st.current_lexeme,
         line := st.token_start_line, column := st.token_start_column }] := rfl

@[simp] theorem add_token_line (st : Lexer) (t : TokenType) :
    (add_token st t).line = st.line := rfl

@[simp] theorem add_token_column (st : Lexer) (t : TokenType) :
    (add_token st t).column = st.column := rfl

@[simp] theorem add_token_current_lexeme (st : Lexer) (t : TokenType) :
    (add_token st t).current_lexeme = [] := rfl

@[simp] theorem start_token_chars (st : Lexer) : (start_token st).chars = st.chars := rfl

@[simp] theorem start_token_tokens (st : Lexer) : (start_token st).tokens = st.tokens := rfl

@[simp] theorem start_token_line (st : Lexer) : (start_token st).line = st.line := rfl

@[simp] theorem start_token_column (st : Lexer) : (start_token st).column = st.column := rfl

@[simp] theorem start_token_current_lexeme (st : Lexer) :
    (start_token st).current_lexeme = [] := rfl

@[simp] theorem start_token_token_start_line (st : Lexer) :
    (start_token st).token_start_line = st.line := rfl

@[simp] theorem start_token_token_start_column (st : Lexer) :
    (start_token st).token_start_column = st.column + 1 := rfl

/-! ## Stream-shrinking lemmas (fuel sufficiency for `scanGo`) -/

theorem string_go_chars_le (cs : List Char) (st : Lexer) :
    (string_go cs st).2.chars.length ≤ max cs.length st.chars.length := by
  induction cs generalizing st with
  | nil => simp [string_go]
  | cons c rest ih =>
    simp only [string_go]
    split
    · simp only [consumeStep_chars, List.length_cons]
      omega
    · have hrec := ih (consumeStep st c rest)
      simp only [consumeStep_chars, List.length_cons] at hrec ⊢
      omega

theorem number_go_chars_le (cs : List Char) (st : Lexer) :
    (number_go cs st).chars.length ≤ max cs.length st.chars.length := by
  induction cs generalizing st with
  | nil => simp [number_go]
  | cons c rest ih =>
    simp only [number_go]
    split
    · have hrec := ih (consumeStep st c rest)
      simp only [consumeStep_chars, List.length_cons] at hrec ⊢
      omega
    · simp only [List.length_cons]
      omega

theorem identifier_go_chars_le (cs : List Char) (st : Lexer) :
    (identifier_go cs st).chars.length ≤ max cs.length st.chars.length := by
  induction cs generalizing st with
  | nil => simp [identifier_go]
  | cons c rest ih =>
    simp only [identifier_go]
    split
    · have hrec := ih (consumeStep st c rest)
      simp only [consumeStep_chars, List.length_cons] at hrec ⊢
      omega
    · simp only [List.length_cons]
      omega

theorem consume_if_chars_le (st : Lexer) (ch : Char) :
    (consume_if st ch).2.chars.length ≤ st.chars.length := by
  unfold consume_if
  split
  · rename_i c rest heq
    split
    · simp [heq]
    · exact Nat.le_refl _
  · exact Nat.le_refl _

/-- A `dispatch` call that returns `Ok(true)` does not grow the stream. -/
theorem dispatch_true_chars_le {c : Char} {st st' : Lexer}
    (h : dispatch c st = .ok true st') : st'.chars.length ≤ st.chars.length := by
  unfold dispatch at h
  by_cases h1 : c = '('
  · rw [if_pos h1] at h
    simp only [LexResult.ok.injEq, true_and] at h
    subst h
    simp
  rw [if_neg h1] at h
  by_cases h2 : c = ')'
  · rw [if_pos h2] at h
    simp only [LexResult.ok.injEq, true_and] at h
    subst h
    simp
  rw [if_neg h2] at h
  by_cases h3 : c = '+'
  · rw [if_pos h3] at h
    simp only [LexResult.ok.injEq, true_and] at h
    subst h
    simp
  rw [if_neg h3] at h
  by_cases h4 : c = '-'
  · rw [if_pos h4] at h
    simp only [LexResult.ok.injEq, true_and] at h
    subst h
    simp
  rw [if_neg h4] at h
  by_cases h5 : c = '*'
  · rw [if_pos h5] at h
    simp only [LexResult.ok.injEq, true_and] at h
    subst h
    simp
  rw [if_neg h5] at h
  by_cases h6 : c = '/'
  · rw [if_pos h6] at h
    simp only [LexResult.ok.injEq, true_and] at h
    subst h
    simp
  rw [if_neg h6] at h
  by_cases h7 : c = '!'
  · rw [if_pos h7] at h
    rcases hci : consume_if st '=' with ⟨b, sti⟩
    rw [hci] at h
    have hle := consume_if_chars_le st '='
    rw [hci] at hle
    cases b
    · simp only [LexResult.ok.injEq, true_and] at h
      subst h
      simpa using hle
    · simp only [LexResult.ok.injEq, true_and] at h
      subst h
      simpa using hle
  rw [if_neg h7] at h
  by_cases h8 : c = '>'
  · rw [if_pos h8] at h
    rcases hci : consume_if st '=' with ⟨b, sti⟩
    rw [hci] at h
    have hle := consume_if_chars_le st '='
    rw [hci] at hle
    cases b
    · simp only [LexResult.ok.injEq, true_and] at h
      subst h
      simpa using hle
    · simp only [LexResult.ok.injEq, true_and] at h
      subst h
      simpa using hle
  rw [if_neg h8] at h
  by_cases h9 : c = '<'
  · rw [if_pos h9] at h
    rcases hci : consume_if st '=' with ⟨b, sti⟩
    rw [hci] at h
    have hle := consume_if_chars_le st '='
    rw [hci] at hle
    cases b
    · simp only [LexResult.ok.injEq, true_and] at h
      subst h
      simpa using hle
    · simp only [LexResult.ok.injEq, true_and] at h
      subst h
      simpa using hle
  rw [if_neg h9] at h
  by_cases h10 : c = ' '
  · rw [if_pos h10] at h
    simp only [LexResult.ok.injEq, true_and] at h
    subst h
    exact Nat.le_refl _
  rw [if_neg h10] at h
  by_cases h11 : c = '\r'
  · rw [if_pos h11] at h
    simp only [LexResult.ok.injEq, true_and] at h
    subst h
    exact Nat.le_refl _
  rw [if_neg h11] at h
  by_cases h12 : c = '\t'
  · rw [if_pos h12] at h
    simp only [LexResult.ok.injEq, true_and] at h
    subst h
    exact Nat.le_refl _
  rw [if_neg h12] at h
  by_cases h13 : c = '\n'
  · rw [if_pos h13] at h
    simp only [LexResult.ok.injEq, true_and] at h
    subst h
    exact Nat.le_refl _
  rw [if_neg h13] at h
  by_cases h14 : c = '"'
  · rw [if_pos h14] at h
    rcases hsl : string_loop st with ⟨b, sti⟩
    rw [hsl] at h
    have hle := string_go_chars_le st.chars st
    rw [show string_go st.chars st = string_loop st from rfl, hsl] at hle
    cases b
    · simp at h
    · simp only [LexResult.ok.injEq, true_and] at h
      subst h
      simpa using hle
  rw [if_neg h14] at h
  by_cases h15 : c.isDigit = true
  · rw [if_pos h15] at h
    by_cases h16 : digitsToNat (number_loop st).current_lexeme ≤ 2147483647
    · rw [if_pos h16] at h
      simp only [LexResult.ok.injEq, true_and] at h
      subst h
      have hle := number_go_chars_le st.chars st
      simp only [Nat.max_self] at hle
      simpa [number_loop] using hle
    · rw [if_neg h16] at h
      simp at h
  rw [if_neg h15] at h
  by_cases h17 : (c.isAlpha || c = '_' : Bool) = true
  · rw [if_pos h17] at h
    have hle := identifier_go_chars_le st.chars st
    simp only [Nat.max_self] at hle
    by_cases h18 : (identifier_loop st).current_lexeme = "and".data
    · rw [if_pos h18] at h
      simp only [LexResult.ok.injEq, true_and] at h
      subst h
      simpa [identifier_loop] using hle
    rw [if_neg h18] at h
    by_cases h19 : (identifier_loop st).current_lexeme = "or".data
    · rw [if_pos h19] at h
      simp only [LexResult.ok.injEq, true_and] at h
      subst h
      simpa [identifier_loop] using hle
    rw [if_neg h19] at h
    simp only [LexResult.ok.injEq, true_and] at h
    subst h
    simpa [identifier_loop] using hle
  rw [if_neg h17] at h
  simp at h

/-- A `next_token` call that returns `Ok(true)` strictly shrinks the stream:
it consumed at least the one character it dispatched on. -/
theorem next_token_true_chars_lt {st st' : Lexer} (h : next_token st = .ok true st') :
    st'.chars.length < st.chars.length := by
  unfold next_token at h
  split at h
  · simp_all
  · rename_i c rest hchars
    have hle := dispatch_true_chars_le h
    simp only [consumeStep_chars] at hle
    rw [start_token_chars] at hchars
    rw [hchars]
    simp only [List.length_cons]
    omega

/-- Fuel is irrelevant once it exceeds the number of unconsumed characters. -/
theorem scanGo_fuel_irrelevant {fuel fuel' : Nat} (st : Lexer)
    (h : st.chars.length < fuel) (h' : st.chars.length < fuel') :
    scanGo fuel st = scanGo fuel' st := by
  induction fuel generalizing st fuel' with
  | zero => omega
  | succ f ih =>
    cases fuel' with
    | zero => omega
    | succ f' =>
      cases hnt : next_token st with
      | ok more st' =>
        cases more with
        | true =>
          have hlt := next_token_true_chars_lt hnt
          simp only [scanGo, hnt]
          exact ih st' (by omega) (by omega)
        | false => simp only [scanGo, hnt]
      | err e => simp only [scanGo, hnt]
      | crash => simp only [scanGo, hnt]

end Lexer

namespace Lexer

/-! ## Evaluation lemmas for `dispatch` and `next_token` -/

theorem dispatch_space (st : Lexer) : dispatch ' ' st = .ok true st := rfl

theorem dispatch_cr (st : Lexer) : dispatch '\r' st = .ok true st := rfl

theorem dispatch_tab (st : Lexer) : dispatch '\t' st = .ok true st := rfl

theorem dispatch_nl (st : Lexer) : dispatch '\n' st = .ok true st := rfl

theorem dispatch_quote (st : Lexer) :
    dispatch '"' st =
      match string_loop st with
      | (false, stf) => .err (stf.new_error "Invalid String")
      | (true, stf) =>
        .ok true (stf.add_token (.String (String.mk ((stf.current_lexeme.drop 1).dropLast)))) :=
  rfl

theorem dispatch_eq_char (st : Lexer) :
    dispatch '=' st = .err (st.new_error "Unexpected Token: =") := rfl

theorem dispatch_digit {c : Char} (h : c.isDigit = true) (st : Lexer) :
    dispatch c st =
      if digitsToNat (number_loop st).current_lexeme ≤ 2147483647 then
        .ok true ((number_loop st).add_token
          (.Number (digitsToNat (number_loop st).current_lexeme : Int)))
      else .crash := by
  obtain ⟨n1, n2, n3, n4, n5, n6, n7, n8, n9, n10, n11, n12, n13, n14⟩ := digit_ne_chars h
  unfold dispatch
  rw [if_neg n1, if_neg n2, if_neg n3, if_neg n4, if_neg n5, if_neg n6, if_neg n7,
      if_neg n8, if_neg n9, if_neg n10, if_neg n11, if_neg n12, if_neg n13, if_neg n14,
      if_pos h]

theorem dispatch_ident {c : Char} (h : (c.isAlpha || decide (c = '_')) = true) (st : Lexer) :
    dispatch c st =
      if (identifier_loop st).current_lexeme = "and".data then
        .ok true ((identifier_loop st).add_token .And)
      else if (identifier_loop st).current_lexeme = "or".data then
        .ok true ((identifier_loop st).add_token .Or)
      else .ok true (identifier_loop st) := by
  obtain ⟨⟨n1, n2, n3, n4, n5, n6, n7, n8, n9, n10, n11, n12, n13, n14⟩, hd⟩ :=
    identFirst_ne_chars h
  unfold dispatch
  rw [if_neg n1, if_neg n2, if_neg n3, if_neg n4, if_neg n5, if_neg n6, if_neg n7,
      if_neg n8, if_neg n9, if_neg n10, if_neg n11, if_neg n12, if_neg n13, if_neg n14,
      if_neg (show ¬(c.isDigit = true) by simp [hd]), if_pos h]

theorem next_token_nil {st : Lexer} (h : st.chars = []) :
    next_token st = .ok false (start_token st) := by
  unfold next_token
  split
  · rfl
  · rename_i c rest heq
    rw [start_token_chars, h] at heq
    cases heq

theorem next_token_cons {st : Lexer} {c : Char} {rest : List Char} (h : st.chars = c :: rest) :
    next_token st = dispatch c (consumeStep (start_token st) c rest) := by
  unfold next_token
  split
  · rename_i heq
    rw [start_token_chars, h] at heq
    cases heq
  · rename_i c' rest' heq
    rw [start_token_chars, h] at heq
    injection heq with e1 e2
    subst e1
    subst e2
    rfl

/-! ## Loop characterizations -/

theorem string_go_tokens (cs : List Char) (st : Lexer) :
    (string_go cs st).2.tokens = st.tokens := by
  induction cs generalizing st with
  | nil => simp [string_go]
  | cons c rest ih =>
    simp only [string_go]
    split
    · simp
    · rw [ih]
      simp

theorem number_go_tokens (cs : List Char) (st : Lexer) :
    (number_go cs st).tokens = st.tokens := by
  induction cs generalizing st with
  | nil => simp [number_go]
  | cons c rest ih =>
    simp only [number_go]
    split
    · rw [ih]
      simp
    · rfl

theorem identifier_go_tokens (cs : List Char) (st : Lexer) :
    (identifier_go cs st).tokens = st.tokens := by
  induction cs generalizing st with
  | nil => simp [identifier_go]
  | cons c rest ih =>
    simp only [identifier_go]
    split
    · rw [ih]
      simp
    · rfl

theorem consume_if_tokens (st : Lexer) (ch : Char) :
    (consume_if st ch).2.tokens = st.tokens := by
  unfold consume_if
  split
  · split
    · simp
    · rfl
  · rfl

theorem string_go_no_quote {cs : List Char} (h : '"' ∉ cs) (st : Lexer) :
    (string_go cs st).1 = false ∧
    (string_go cs st).2.token_start_line = st.token_start_line ∧
    (string_go cs st).2.token_start_column = st.token_start_column := by
  induction cs generalizing st with
  | nil => simp [string_go]
  | cons c rest ih =>
    simp only [List.mem_cons, not_or] at h
    obtain ⟨hc, hrest⟩ := h
    simp only [string_go]
    rw [if_neg (fun e => hc e.symm)]
    have hr := ih hrest (consumeStep st c rest)
    simpa using hr

theorem number_go_digits {cs : List Char} (h : ∀ c ∈ cs, c.isDigit = true) (st : Lexer)
    (hst : st.chars = cs) :
    number_go cs st =
      { st with chars := [], current_lexeme := st.current_lexeme ++ cs,
                column := st.column + cs.length } := by
  induction cs generalizing st with
  | nil =>
    simp only [number_go, List.append_nil, List.length_nil, Nat.add_zero]
    cases st with
    | mk tks lex chs ln col tsl tsc =>
      simp only at hst
      subst hst
      rfl
  | cons c rest ih =>
    have hc := h c (List.mem_cons_self c rest)
    obtain ⟨hn, ht⟩ := digit_ne_nl_tab hc
    simp only [number_go, if_pos hc]
    rw [consumeStep_plain hn ht]
    rw [ih (fun x hx => h x (List.mem_cons_of_mem c hx)) _ rfl]
    cases st with
    | mk tks lex chs ln col tsl tsc =>
      simp only [Lexer.mk.injEq, List.append_assoc, List.singleton_append, List.length_cons,
        true_and, and_true]
      omega

theorem identifier_go_spec (cs : List Char) (st : Lexer) (hst : st.chars = cs) :
    identifier_go cs st =
      { st with chars := cs.dropWhile identChar,
                current_lexeme := st.current_lexeme ++ cs.takeWhile identChar,
                column := st.column + (cs.takeWhile identChar).length } := by
  induction cs generalizing st with
  | nil =>
    simp only [identifier_go, List.takeWhile_nil, List.dropWhile_nil, List.append_nil,
      List.length_nil, Nat.add_zero]
    cases st with
    | mk tks lex chs ln col tsl tsc =>
      simp only at hst
      subst hst
      rfl
  | cons c rest ih =>
    by_cases hc : identChar c = true
    · obtain ⟨hn, ht⟩ := identChar_ne_nl_tab hc
      simp only [identifier_go, if_pos hc]
      rw [consumeStep_plain hn ht]
      rw [ih _ rfl]
      rw [List.takeWhile_cons_of_pos hc, List.dropWhile_cons_of_pos hc]
      cases st with
      | mk tks lex chs ln col tsl tsc =>
        simp only [Lexer.mk.injEq, List.append_assoc, List.singleton_append, List.length_cons,
          true_and, and_true]
        omega
    · have hc' : identChar c = false := Bool.eq_false_iff.mpr hc
      simp only [identifier_go, hc']
      rw [if_neg (by simp)]
      rw [List.takeWhile_cons_of_neg (by simp [hc']), List.dropWhile_cons_of_neg (by simp [hc'])]
      simp only [List.append_nil, List.length_nil, Nat.add_zero]
      rw [← hst]

end Lexer

namespace Lexer

/-! ## More evaluation lemmas -/

theorem dispatch_lparen (st : Lexer) : dispatch '(' st = .ok true (st.add_token .LeftParen) := rfl

theorem dispatch_rparen (st : Lexer) : dispatch ')' st = .ok true (st.add_token .RightParen) := rfl

theorem dispatch_plus (st : Lexer) : dispatch '+' st = .ok true (st.add_token .Plus) := rfl

theorem dispatch_minus (st : Lexer) : dispatch '-' st = .ok true (st.add_token .Minus) := rfl

theorem dispatch_star (st : Lexer) : dispatch '*' st = .ok true (st.add_token .Star) := rfl

theorem dispatch_slash (st : Lexer) : dispatch '/' st = .ok true (st.add_token .Slash) := rfl

theorem dispatch_bang (st : Lexer) :
    dispatch '!' st =
      match consume_if st '=' with
      | (true, s) => .ok true (s.add_token .BangEqual)
      | (false, s) => .ok true (s.add_token .Bang) := rfl

theorem dispatch_gt (st : Lexer) :
    dispatch '>' st =
      match consume_if st '=' with
      | (true, s) => .ok true (s.add_token .GreaterEqual)
      | (false, s) => .ok true (s.add_token .Greater) := rfl

theorem dispatch_lt (st : Lexer) :
    dispatch '<' st =
      match consume_if st '=' with
      | (true, s) => .ok true (s.add_token .LessEqual)
      | (false, s) => .ok true (s.add_token .Less) := rfl

theorem dispatch_unexpected {c : Char}
    (n1 : c ≠ '(') (n2 : c ≠ ')') (n3 : c ≠ '+') (n4 : c ≠ '-') (n5 : c ≠ '*')
    (n6 : c ≠ '/') (n7 : c ≠ '!') (n8 : c ≠ '>') (n9 : c ≠ '<') (n10 : c ≠ ' ')
    (n11 : c ≠ '\r') (n12 : c ≠ '\t') (n13 : c ≠ '\n') (n14 : c ≠ '"')
    (n15 : c.isDigit = false) (n16 : (c.isAlpha || decide (c = '_')) = false) (st : Lexer) :
    dispatch c st = .err (st.new_error ("Unexpected Token: " ++ String.mk [c])) := by
  unfold dispatch
  rw [if_neg n1, if_neg n2, if_neg n3, if_neg n4, if_neg n5, if_neg n6, if_neg n7,
      if_neg n8, if_neg n9, if_neg n10, if_neg n11, if_neg n12, if_neg n13, if_neg n14,
      if_neg (by simp [n15]), if_neg (by simp [n16])]

/-! ## Position-independence (bisimulation up to line/column data) -/

theorem add_token_same {a b : Lexer} (h : SameLex a b) (t : TokenType) :
    SameLex (a.add_token t) (b.add_token t) := by
  obtain ⟨h1, h2, h3⟩ := h
  exact ⟨by simp [h1], by simp, by simp [h3]⟩

theorem consume_if_same {a b : Lexer} (h : SameLex a b) (ch : Char) :
    (consume_if a ch).1 = (consume_if b ch).1 ∧
      SameLex (consume_if a ch).2 (consume_if b ch).2 := by
  obtain ⟨h1, h2, h3⟩ := h
  unfold consume_if
  rw [← h1]
  cases hca : a.chars with
  | nil =>
    exact ⟨rfl, ⟨h1, h2, h3⟩⟩
  | cons c rest =>
    by_cases hcc : c = ch
    · simp only [if_pos hcc]
      exact ⟨by trivial, ⟨by simp, by simp [h2], by simp [h3]⟩⟩
    · simp only [if_neg hcc]
      exact ⟨by trivial, ⟨h1, h2, h3⟩⟩

theorem string_go_same (cs : List Char) {a b : Lexer} (h : SameLex a b) :
    (string_go cs a).1 = (string_go cs b).1 ∧
      SameLex (string_go cs a).2 (string_go cs b).2 := by
  induction cs generalizing a b with
  | nil => exact ⟨rfl, h⟩
  | cons c rest ih =>
    obtain ⟨h1, h2, h3⟩ := h
    simp only [string_go]
    by_cases hc : c = '"'
    · simp only [if_pos hc]
      exact ⟨by trivial, ⟨by simp, by simp [h2], by simp [h3]⟩⟩
    · simp only [if_neg hc]
      exact ih ⟨by simp, by simp [h2], by simp [h3]⟩

theorem number_go_same (cs : List Char) {a b : Lexer} (h : SameLex a b) :
    SameLex (number_go cs a) (number_go cs b) := by
  induction cs generalizing a b with
  | nil => exact h
  | cons c rest ih =>
    obtain ⟨h1, h2, h3⟩ := h
    simp only [number_go]
    by_cases hc : c.isDigit = true
    · simp only [if_pos hc]
      exact ih ⟨by simp, by simp [h2], by simp [h3]⟩
    · simp only [if_neg hc]
      exact ⟨h1, h2, h3⟩

theorem identifier_go_same (cs : List Char) {a b : Lexer} (h : SameLex a b) :
    SameLex (identifier_go cs a) (identifier_go cs b) := by
  induction cs generalizing a b with
  | nil => exact h
  | cons c rest ih =>
    obtain ⟨h1, h2, h3⟩ := h
    simp only [identifier_go]
    by_cases hc : identChar c = true
    · simp only [if_pos hc]
      exact ih ⟨by simp, by simp [h2], by simp [h3]⟩
    · simp only [if_neg hc]
      exact ⟨h1, h2, h3⟩

theorem dispatch_same {c : Char} {a b : Lexer} (h : SameLex a b) :
    (∃ m a' b', dispatch c a = .ok m a' ∧ dispatch c b = .ok m b' ∧ SameLex a' b') ∨
    (∃ ea eb, dispatch c a = .err ea ∧ dispatch c b = .err eb) ∨
    (dispatch c a = .crash ∧ dispatch c b = .crash) := by
  obtain ⟨h1, h2, h3⟩ := h
  have hS : SameLex a b := ⟨h1, h2, h3⟩
  by_cases hc1 : c = '('
  · subst hc1
    left
    exact ⟨true, _, _, rfl, rfl, add_token_same hS _⟩
  by_cases hc2 : c = ')'
  · subst hc2
    left
    exact ⟨true, _, _, rfl, rfl, add_token_same hS _⟩
  by_cases hc3 : c = '+'
  · subst hc3
    left
    exact ⟨true, _, _, rfl, rfl, add_token_same hS _⟩
  by_cases hc4 : c = '-'
  · subst hc4
    left
    exact ⟨true, _, _, rfl, rfl, add_token_same hS _⟩
  by_cases hc5 : c = '*'
  · subst hc5
    left
    exact ⟨true, _, _, rfl, rfl, add_token_same hS _⟩
  by_cases hc6 : c = '/'
  · subst hc6
    left
    exact ⟨true, _, _, rfl, rfl, add_token_same hS _⟩
  by_cases hc7 : c = '!'
  · subst hc7
    obtain ⟨hf, hs⟩ := consume_if_same hS '='
    rw [dispatch_bang a, dispatch_bang b]
    rcases hca : consume_if a '=' with ⟨ba, sa⟩
    rcases hcb : consume_if b '=' with ⟨bb, sb⟩
    rw [hca, hcb] at hf hs
    simp only at hf hs
    subst hf
    cases ba
    · left
      exact ⟨true, _, _, rfl, rfl, add_token_same hs _⟩
    · left
      exact ⟨true, _, _, rfl, rfl, add_token_same hs _⟩
  by_cases hc8 : c = '>'
  · subst hc8
    obtain ⟨hf, hs⟩ := consume_if_same hS '='
    rw [dispatch_gt a, dispatch_gt b]
    rcases hca : consume_if a '=' with ⟨ba, sa⟩
    rcases hcb : consume_if b '=' with ⟨bb, sb⟩
    rw [hca, hcb] at hf hs
    simp only at hf hs
    subst hf
    cases ba
    · left
      exact ⟨true, _, _, rfl, rfl, add_token_same hs _⟩
    · left
      exact ⟨true, _, _, rfl, rfl, add_token_same hs _⟩
  by_cases hc9 : c = '<'
  · subst hc9
    obtain ⟨hf, hs⟩ := consume_if_same hS '='
    rw [dispatch_lt a, dispatch_lt b]
    rcases hca : consume_if a '=' with ⟨ba, sa⟩
    rcases hcb : consume_if b '=' with ⟨bb, sb⟩
    rw [hca, hcb] at hf hs
    simp only at hf hs
    subst hf
    cases ba
    · left
      exact ⟨true, _, _, rfl, rfl, add_token_same hs _⟩
    · left
      exact ⟨true, _, _, rfl, rfl, add_token_same hs _⟩
  by_cases hc10 : c = ' '
  · subst hc10
    left
    exact ⟨true, a, b, rfl, rfl, hS⟩
  by_cases hc11 : c = '\r'
  · subst hc11
    left
    exact ⟨true, a, b, rfl, rfl, hS⟩
  by_cases hc12 : c = '\t'
  · subst hc12
    left
    exact ⟨true, a, b, rfl, rfl, hS⟩
  by_cases hc13 : c = '\n'
  · subst hc13
    left
    exact ⟨true, a, b, rfl, rfl, hS⟩
  by_cases hc14 : c = '"'
  · subst hc14
    obtain ⟨hf, hs⟩ := string_go_same a.chars hS
    rw [dispatch_quote a, dispatch_quote b]
    rcases hla : string_loop a with ⟨fa, sa⟩
    rcases hlb : string_loop b with ⟨fb, sb⟩
    have hga : string_go a.chars a = (fa, sa) := hla
    have hgb : string_go a.chars b = (fb, sb) := by
      rw [show string_go a.chars b = string_loop b by rw [string_loop, h1], hlb]
    rw [hga, hgb] at hf hs
    simp only at hf hs
    subst hf
    cases fa
    · right
      left
      exact ⟨_, _, rfl, rfl⟩
    · left
      refine ⟨true, _, _, rfl, rfl, ?_⟩
      have hlex : sa.current_lexeme = sb.current_lexeme := hs.2.1
      rw [hlex]
      exact add_token_same hs _
  by_cases hc15 : c.isDigit = true
  · rw [dispatch_digit hc15 a, dispatch_digit hc15 b]
    have hnum := number_go_same a.chars hS
    have hna : number_loop a = number_go a.chars a := rfl
    have hnb : number_loop b = number_go a.chars b := by rw [number_loop, h1]
    rw [hna, hnb]
    have hlex : (number_go a.chars a).current_lexeme = (number_go a.chars b).current_lexeme :=
      hnum.2.1
    rw [← hlex]
    by_cases hle : digitsToNat (number_go a.chars a).current_lexeme ≤ 2147483647
    · rw [if_pos hle, if_pos hle]
      left
      exact ⟨true, _, _, rfl, rfl, add_token_same hnum _⟩
    · rw [if_neg hle, if_neg hle]
      right
      right
      exact ⟨rfl, rfl⟩
  by_cases hc17 : (c.isAlpha || decide (c = '_')) = true
  · rw [dispatch_ident hc17 a, dispatch_ident hc17 b]
    have hid := identifier_go_same a.chars hS
    have hia : identifier_loop a = identifier_go a.chars a := rfl
    have hib : identifier_loop b = identifier_go a.chars b := by rw [identifier_loop, h1]
    rw [hia, hib]
    have hlex : (identifier_go a.chars a).current_lexeme =
        (identifier_go a.chars b).current_lexeme := hid.2.1
    rw [← hlex]
    by_cases hand : (identifier_go a.chars a).current_lexeme = "and".data
    · rw [if_pos hand, if_pos hand]
      left
      exact ⟨true, _, _, rfl, rfl, add_token_same hid _⟩
    rw [if_neg hand, if_neg hand]
    by_cases hor : (identifier_go a.chars a).current_lexeme = "or".data
    · rw [if_pos hor, if_pos hor]
      left
      exact ⟨true, _, _, rfl, rfl, add_token_same hid _⟩
    rw [if_neg hor, if_neg hor]
    left
    exact ⟨true, _, _, rfl, rfl, hid⟩
  have hd : c.isDigit = false := Bool.eq_false_iff.mpr hc15
  have hi : (c.isAlpha || decide (c = '_')) = false := Bool.eq_false_iff.mpr hc17
  right
  left
  exact ⟨_, _,
    dispatch_unexpected hc1 hc2 hc3 hc4 hc5 hc6 hc7 hc8 hc9 hc10 hc11 hc12 hc13 hc14 hd hi a,
    dispatch_unexpected hc1 hc2 hc3 hc4 hc5 hc6 hc7 hc8 hc9 hc10 hc11 hc12 hc13 hc14 hd hi b⟩

theorem next_token_same {a b : Lexer} (h : SameScan a b) :
    (∃ m a' b', next_token a = .ok m a' ∧ next_token b = .ok m b' ∧ SameScan a' b') ∨
    (∃ ea eb, next_token a = .err ea ∧ next_token b = .err eb) ∨
    (next_token a = .crash ∧ next_token b = .crash) := by
  obtain ⟨h1, h3⟩ := h
  cases hch : a.chars with
  | nil =>
    have hb : b.chars = [] := by rw [← h1, hch]
    left
    exact ⟨false, _, _, next_token_nil hch, next_token_nil hb, ⟨by simp [h1], by simp [h3]⟩⟩
  | cons c rest =>
    have hb : b.chars = c :: rest := by rw [← h1, hch]
    have hSL : SameLex (consumeStep (start_token a) c rest) (consumeStep (start_token b) c rest) :=
      ⟨by simp, by simp, by simp [h3]⟩
    rcases dispatch_same hSL with ⟨m, a', b', ha', hb', hs⟩ | ⟨ea, eb, ha', hb'⟩ | ⟨ha', hb'⟩
    · left
      exact ⟨m, a', b', by rw [next_token_cons hch]; exact ha',
        by rw [next_token_cons hb]; exact hb', ⟨hs.1, hs.2.2⟩⟩
    · right
      left
      exact ⟨ea, eb, by rw [next_token_cons hch]; exact ha',
        by rw [next_token_cons hb]; exact hb'⟩
    · right
      right
      exact ⟨by rw [next_token_cons hch]; exact ha', by rw [next_token_cons hb]; exact hb'⟩

theorem scanGo_same (fuel : Nat) {a b : Lexer} (h : SameScan a b) :
    kindsOf (scanGo fuel a) = kindsOf (scanGo fuel b) := by
  induction fuel generalizing a b with
  | zero => rfl
  | succ f ih =>
    rcases next_token_same h with ⟨m, a', b', ha, hb, hs⟩ | ⟨ea, eb, ha, hb⟩ | ⟨ha, hb⟩
    · cases m
      · simp only [scanGo, ha, hb, kindsOf]
        simp [hs.2]
      · simp only [scanGo, ha, hb]
        exact ih hs
    · simp [scanGo, ha, hb, kindsOf]
    · simp [scanGo, ha, hb, kindsOf]

end Lexer

namespace Lexer

/-! ## What kinds of tokens a scan step can append -/

theorem delta_of_add_token {s st : Lexer} (htk : s.tokens = st.tokens) (T : TokenType)
    (hT1 : T ≠ .Eof) (hT2 : T ≠ .EqualEqual) :
    ∃ Δ, (s.add_token T).tokens = st.tokens ++ Δ ∧
      ∀ t ∈ Δ, t.token_type ≠ .Eof ∧ t.token_type ≠ .EqualEqual := by
  refine ⟨[{ token_type := T, lexeme := String.mk s.current_lexeme,
             line := s.token_start_line, column := s.token_start_column }],
          by simp [htk], ?_⟩
  intro t ht
  simp only [List.mem_singleton] at ht
  subst ht
  exact ⟨hT1, hT2⟩

theorem dispatch_ok_tokens {c : Char} {st : Lexer} {m : Bool} {st' : Lexer}
    (h : dispatch c st = .ok m st') :
    ∃ Δ, st'.tokens = st.tokens ++ Δ ∧
      ∀ t ∈ Δ, t.token_type ≠ .Eof ∧ t.token_type ≠ .EqualEqual := by
  by_cases hc1 : c = '('
  · subst hc1
    rw [dispatch_lparen] at h
    simp only [LexResult.ok.injEq] at h
    obtain ⟨hm, hst⟩ := h
    subst hst
    exact delta_of_add_token rfl _ (by simp) (by simp)
  by_cases hc2 : c = ')'
  · subst hc2
    rw [dispatch_rparen] at h
    simp only [LexResult.ok.injEq] at h
    obtain ⟨hm, hst⟩ := h
    subst hst
    exact delta_of_add_token rfl _ (by simp) (by simp)
  by_cases hc3 : c = '+'
  · subst hc3
    rw [dispatch_plus] at h
    simp only [LexResult.ok.injEq] at h
    obtain ⟨hm, hst⟩ := h
    subst hst
    exact delta_of_add_token rfl _ (by simp) (by simp)
  by_cases hc4 : c = '-'
  · subst hc4
    rw [dispatch_minus] at h
    simp only [LexResult.ok.injEq] at h
    obtain ⟨hm, hst⟩ := h
    subst hst
    exact delta_of_add_token rfl _ (by simp) (by simp)
  by_cases hc5 : c = '*'
  · subst hc5
    rw [dispatch_star] at h
    simp only [LexResult.ok.injEq] at h
    obtain ⟨hm, hst⟩ := h
    subst hst
    exact delta_of_add_token rfl _ (by simp) (by simp)
  by_cases hc6 : c = '/'
  · subst hc6
    rw [dispatch_slash] at h
    simp only [LexResult.ok.injEq] at h
    obtain ⟨hm, hst⟩ := h
    subst hst
    exact delta_of_add_token rfl _ (by simp) (by simp)
  by_cases hc7 : c = '!'
  · subst hc7
    rw [dispatch_bang] at h
    rcases hci : consume_if st '=' with ⟨bb, sb⟩
    rw [hci] at h
    have htk := consume_if_tokens st '='
    rw [hci] at htk
    simp only at htk
    cases bb
    · simp only [LexResult.ok.injEq] at h
      obtain ⟨hm, hst⟩ := h
      subst hst
      exact delta_of_add_token htk _ (by simp) (by simp)
    · simp only [LexResult.ok.injEq] at h
      obtain ⟨hm, hst⟩ := h
      subst hst
      exact delta_of_add_token htk _ (by simp) (by simp)
  by_cases hc8 : c = '>'
  · subst hc8
    rw [dispatch_gt] at h
    rcases hci : consume_if st '=' with ⟨bb, sb⟩
    rw [hci] at h
    have htk := consume_if_tokens st '='
    rw [hci] at htk
    simp only at htk
    cases bb
    · simp only [LexResult.ok.injEq] at h
      obtain ⟨hm, hst⟩ := h
      subst hst
      exact delta_of_add_token htk _ (by simp) (by simp)
    · simp only [LexResult.ok.injEq] at h
      obtain ⟨hm, hst⟩ := h
      subst hst
      exact delta_of_add_token htk _ (by simp) (by simp)
  by_cases hc9 : c = '<'
  · subst hc9
    rw [dispatch_lt] at h
    rcases hci : consume_if st '=' with ⟨bb, sb⟩
    rw [hci] at h
    have htk := consume_if_tokens st '='
    rw [hci] at htk
    simp only at htk
    cases bb
    · simp only [LexResult.ok.injEq] at h
      obtain ⟨hm, hst⟩ := h
      subst hst
      exact delta_of_add_token htk _ (by simp) (by simp)
    · simp only [LexResult.ok.injEq] at h
      obtain ⟨hm, hst⟩ := h
      subst hst
      exact delta_of_add_token htk _ (by simp) (by simp)
  by_cases hc10 : c = ' '
  · subst hc10
    rw [dispatch_space] at h
    simp only [LexResult.ok.injEq] at h
    obtain ⟨hm, hst⟩ := h
    subst hst
    exact ⟨[], by simp, by simp⟩
  by_cases hc11 : c = '\r'
  · subst hc11
    rw [dispatch_cr] at h
    simp only [LexResult.ok.injEq] at h
    obtain ⟨hm, hst⟩ := h
    subst hst
    exact ⟨[], by simp, by simp⟩
  by_cases hc12 : c = '\t'
  · subst hc12
    rw [dispatch_tab] at h
    simp only [LexResult.ok.injEq] at h
    obtain ⟨hm, hst⟩ := h
    subst hst
    exact ⟨[], by simp, by simp⟩
  by_cases hc13 : c = '\n'
  · subst hc13
    rw [dispatch_nl] at h
    simp only [LexResult.ok.injEq] at h
    obtain ⟨hm, hst⟩ := h
    subst hst
    exact ⟨[], by simp, by simp⟩
  by_cases hc14 : c = '"'
  · subst hc14
    rw [dispatch_quote] at h
    rcases hsl : string_loop st with ⟨fb, sb⟩
    rw [hsl] at h
    have htk := string_go_tokens st.chars st
    rw [show string_go st.chars st = string_loop st from rfl, hsl] at htk
    simp only at htk
    cases fb
    · simp at h
    · simp only [LexResult.ok.injEq] at h
      obtain ⟨hm, hst⟩ := h
      subst hst
      exact delta_of_add_token htk _ (by simp) (by simp)
  by_cases hc15 : c.isDigit = true
  · rw [dispatch_digit hc15] at h
    have htk := number_go_tokens st.chars st
    rw [show number_go st.chars st = number_loop st from rfl] at htk
    by_cases hle : digitsToNat (number_loop st).current_lexeme ≤ 2147483647
    · rw [if_pos hle] at h
      simp only [LexResult.ok.injEq] at h
      obtain ⟨hm, hst⟩ := h
      subst hst
      exact delta_of_add_token htk _ (by simp) (by simp)
    · rw [if_neg hle] at h
      simp at h
  by_cases hc17 : (c.isAlpha || decide (c = '_')) = true
  · rw [dispatch_ident hc17] at h
    have htk := identifier_go_tokens st.chars st
    rw [show identifier_go st.chars st = identifier_loop st from rfl] at htk
    by_cases hand : (identifier_loop st).current_lexeme = "and".data
    · rw [if_pos hand] at h
      simp only [LexResult.ok.injEq] at h
      obtain ⟨hm, hst⟩ := h
      subst hst
      exact delta_of_add_token htk _ (by simp) (by simp)
    rw [if_neg hand] at h
    by_cases hor : (identifier_loop st).current_lexeme = "or".data
    · rw [if_pos hor] at h
      simp only [LexResult.ok.injEq] at h
      obtain ⟨hm, hst⟩ := h
      subst hst
      exact delta_of_add_token htk _ (by simp) (by simp)
    rw [if_neg hor] at h
    simp only [LexResult.ok.injEq] at h
    obtain ⟨hm, hst⟩ := h
    subst hst
    exact ⟨[], by simp [htk], by simp⟩
  rw [dispatch_unexpected hc1 hc2 hc3 hc4 hc5 hc6 hc7 hc8 hc9 hc10 hc11 hc12 hc13 hc14
    (Bool.eq_false_iff.mpr hc15) (Bool.eq_false_iff.mpr hc17)] at h
  simp at h

theorem next_token_ok_tokens {st : Lexer} {m : Bool} {st' : Lexer}
    (h : next_token st = .ok m st') :
    ∃ Δ, st'.tokens = st.tokens ++ Δ ∧
      ∀ t ∈ Δ, t.token_type ≠ .Eof ∧ t.token_type ≠ .EqualEqual := by
  cases hch : st.chars with
  | nil =>
    rw [next_token_nil hch] at h
    simp only [LexResult.ok.injEq] at h
    obtain ⟨hm, hst⟩ := h
    subst hst
    exact ⟨[], by simp, by simp⟩
  | cons c rest =>
    rw [next_token_cons hch] at h
    obtain ⟨Δ, hΔ, hg⟩ := dispatch_ok_tokens h
    refine ⟨Δ, ?_, hg⟩
    simpa using hΔ

/-- Structure of every successful scan: the input tokens, then freshly
emitted tokens (never `Eof`, never `EqualEqual`), then the `Eof` sentinel. -/
theorem scanGo_ok_structure (fuel : Nat) (st : Lexer) (ts : List Token)
    (h : scanGo fuel st = .ok ts) :
    ∃ Δ last, ts = st.tokens ++ Δ ++ [last] ∧ last.token_type = .Eof ∧
      ∀ t ∈ Δ, t.token_type ≠ .Eof ∧ t.token_type ≠ .EqualEqual := by
  induction fuel generalizing st with
  | zero => simp [scanGo] at h
  | succ f ih =>
    cases hnt : next_token st with
    | ok m st' =>
      cases m
      · simp only [scanGo, hnt] at h
        obtain ⟨Δ, hΔ, hgood⟩ := next_token_ok_tokens hnt
        simp only [ScanResult.ok.injEq] at h
        refine ⟨Δ, { token_type := .Eof, lexeme := "", line := st'.line,
                     column := st'.column }, ?_, rfl, hgood⟩
        rw [← h, hΔ]
      · simp only [scanGo, hnt] at h
        obtain ⟨Δ1, last, hts, hlast, hgood1⟩ := ih st' h
        obtain ⟨Δ0, hΔ0, hgood0⟩ := next_token_ok_tokens hnt
        refine ⟨Δ0 ++ Δ1, last, ?_, hlast, ?_⟩
        · rw [hts, hΔ0]
          simp [List.append_assoc]
        · intro t ht
          rcases List.mem_append.mp ht with hm | hm
          · exact hgood0 t hm
          · exact hgood1 t hm
    | err e => simp [scanGo, hnt] at h
    | crash => simp [scanGo, hnt] at h

end Lexer

namespace Parser

/-! ## Parser well-formedness machinery -/

theorem rem_pos {st : Parser} (h : Wf st) : 1 ≤ rem st := by
  have := h.1
  unfold rem
  omega

theorem peek_some {st : Parser} (h : Wf st) :
    st.tokens[st.current]? = some (st.tokens.get ⟨st.current, h.1⟩) := by
  simp [List.getElem?_eq_getElem h.1]

theorem is_at_end_eq {st : Parser} (h : Wf st) :
    is_at_end st =
      some (decide ((st.tokens.get ⟨st.current, h.1⟩).token_type = TokenType.Eof)) := by
  rw [is_at_end, peek, peek_some h]
  rfl

theorem error_wf {st : Parser} {tk : Token} (htok : st.tokens[st.current]? = some tk)
    (msg : Str) :
    error st msg = some { message := msg, line := tk.line, column := tk.column } := by
  rw [error, peek, htok]
  rfl

theorem is_at_end_false_ne {st : Parser} (h : Wf st) (hf : is_at_end st = some false) :
    (st.tokens.get ⟨st.current, h.1⟩).token_type ≠ TokenType.Eof := by
  have heq := is_at_end_eq h
  rw [hf] at heq
  intro hcon
  rw [hcon] at heq
  simp at heq

theorem is_at_end_false_lt {st : Parser} (h : Wf st) (hf : is_at_end st = some false) :
    st.current + 1 < st.tokens.length := by
  have hne := is_at_end_false_ne h hf
  obtain ⟨hcur, last, hlast, htype⟩ := h
  have hl2 : st.tokens[st.tokens.length - 1]? = some last := by
    rw [← List.getLast?_eq_getElem?]
    exact hlast
  by_contra hcon
  have hce : st.current = st.tokens.length - 1 := by omega
  have hsome : st.tokens[st.current]? = some last := by
    rw [hce]
    exact hl2
  rw [peek_some ⟨hcur, last, hlast, htype⟩] at hsome
  simp only [Option.some.injEq] at hsome
  exact hne (by rw [hsome]; exact htype)

theorem wf_advance {st : Parser} (h : Wf st) (hf : is_at_end st = some false) :
    Wf { st with current := st.current + 1 } := by
  obtain ⟨hcur, last, hlast, htype⟩ := h
  exact ⟨is_at_end_false_lt ⟨hcur, last, hlast, htype⟩ hf, last, hlast, htype⟩

theorem advance_eq {st : Parser} (h : Wf st) (hf : is_at_end st = some false) :
    advance st = some (st.tokens.get ⟨st.current, h.1⟩, { st with current := st.current + 1 }) := by
  rw [advance, hf]
  have h1 : (if (false : Bool) then st else { st with current := st.current + 1 }) =
      { st with current := st.current + 1 } := by simp
  simp only [h1]
  rw [show previous { st with current := st.current + 1 } = st.tokens[st.current]? by
    simp [previous]]
  rw [peek_some h]
  rfl

theorem check_eq_of_false {st : Parser} (h : Wf st) (hf : is_at_end st = some false)
    (k : TokenType) :
    check st k = some (sameKind (st.tokens.get ⟨st.current, h.1⟩).token_type k) := by
  rw [check, hf, peek_some h]
  rfl

theorem check_eq_of_true {st : Parser} (hf : is_at_end st = some true) (k : TokenType) :
    check st k = some false := by
  rw [check, hf]

theorem match_tokens_wf {st : Parser} (h : Wf st) (ks : List TokenType) :
    match_tokens st ks = some (false, st) ∨
    (match_tokens st ks = some (true, { st with current := st.current + 1 }) ∧
      Wf { st with current := st.current + 1 } ∧
      st.current + 1 < st.tokens.length ∧
      ∃ tok, st.tokens[st.current]? = some tok ∧
        ∃ k ∈ ks, sameKind tok.token_type k = true) := by
  induction ks with
  | nil => left; rfl
  | cons k rest ih =>
    rcases hae : is_at_end st with _ | b
    · exact absurd hae (by rw [is_at_end_eq h]; simp)
    cases b
    · -- not at end: check returns the kind comparison
      have hchk := check_eq_of_false h hae k
      by_cases hsk : sameKind (st.tokens.get ⟨st.current, h.1⟩).token_type k = true
      · right
        rw [hsk] at hchk
        refine ⟨?_, wf_advance h hae, is_at_end_false_lt h hae,
          st.tokens.get ⟨st.current, h.1⟩, peek_some h, k, List.mem_cons_self k rest, hsk⟩
        rw [match_tokens, hchk, advance_eq h hae]
      · have hsk' : sameKind (st.tokens.get ⟨st.current, h.1⟩).token_type k = false :=
          Bool.eq_false_iff.mpr hsk
        rw [hsk'] at hchk
        rcases ih with hfalse | ⟨hmt, hwf, hlt, tok, htok, k2, hk2, hsk2⟩
        · left
          rw [match_tokens, hchk, hfalse]
        · right
          refine ⟨?_, hwf, hlt, tok, htok, k2, List.mem_cons_of_mem k hk2, hsk2⟩
          rw [match_tokens, hchk, hmt]
    · -- at end: check is false
      have hchk := check_eq_of_true hae k
      rcases ih with hfalse | ⟨hmt, hwf, hlt, tok, htok, k2, hk2, hsk2⟩
      · left
        rw [match_tokens, hchk, hfalse]
      · right
        refine ⟨?_, hwf, hlt, tok, htok, k2, List.mem_cons_of_mem k hk2, hsk2⟩
        rw [match_tokens, hchk, hmt]

theorem sameKind_plus {a : TokenType} : sameKind a .Plus = true ↔ a = .Plus := by
  cases a <;> simp [sameKind, kindIdx]

theorem sameKind_minus {a : TokenType} : sameKind a .Minus = true ↔ a = .Minus := by
  cases a <;> simp [sameKind, kindIdx]

theorem sameKind_star {a : TokenType} : sameKind a .Star = true ↔ a = .Star := by
  cases a <;> simp [sameKind, kindIdx]

theorem sameKind_slash {a : TokenType} : sameKind a .Slash = true ↔ a = .Slash := by
  cases a <;> simp [sameKind, kindIdx]

theorem sameKind_bang {a : TokenType} : sameKind a .Bang = true ↔ a = .Bang := by
  cases a <;> simp [sameKind, kindIdx]

theorem sameKind_rparen {a : TokenType} : sameKind a .RightParen = true ↔ a = .RightParen := by
  cases a <;> simp [sameKind, kindIdx]

end Parser

namespace Parser

/-- Fuel sufficiency and safety of every production, by induction on fuel:
with fuel at least `6 * rem + 5` no production panics or runs out of fuel on
a well-formed state. -/
theorem fuel_good (fuel : Nat) :
    (∀ st : Parser, Wf st → 6 * rem st + 5 ≤ fuel → GoodS st (expression fuel st)) ∧
    (∀ st : Parser, Wf st → 6 * rem st + 4 ≤ fuel → GoodS st (term fuel st)) ∧
    (∀ st : Parser, Wf st → 6 * rem st + 3 ≤ fuel → GoodS st (factor fuel st)) ∧
    (∀ st : Parser, Wf st → 6 * rem st + 2 ≤ fuel → GoodS st (unary fuel st)) ∧
    (∀ st : Parser, Wf st → 6 * rem st + 1 ≤ fuel → GoodS st (primary fuel st)) ∧
    (∀ (st : Parser) (e0 : Expr), Wf st → 6 * rem st + 1 ≤ fuel →
      GoodL st (term_loop fuel e0 st)) ∧
    (∀ (st : Parser) (e0 : Expr), Wf st → 6 * rem st + 1 ≤ fuel →
      GoodL st (factor_loop fuel e0 st)) := by
  induction fuel with
  | zero =>
    refine ⟨?_, ?_, ?_, ?_, ?_, ?_, ?_⟩
    · intro st h hf
      exact absurd hf (by have := rem_pos h; omega)
    · intro st h hf
      exact absurd hf (by have := rem_pos h; omega)
    · intro st h hf
      exact absurd hf (by have := rem_pos h; omega)
    · intro st h hf
      exact absurd hf (by have := rem_pos h; omega)
    · intro st h hf
      exact absurd hf (by have := rem_pos h; omega)
    · intro st e0 h hf
      exact absurd hf (by have := rem_pos h; omega)
    · intro st e0 h hf
      exact absurd hf (by have := rem_pos h; omega)
  | succ f ih =>
    obtain ⟨ihE, ihT, ihF, ihU, ihP, ihTL, ihFL⟩ := ih
    have hremEq : ∀ st : Parser, rem st = st.tokens.length - st.current := fun _ => rfl
    have hremBump : ∀ st : Parser,
        rem { st with current := st.current + 1 } = st.tokens.length - (st.current + 1) :=
      fun _ => rfl
    refine ⟨?_, ?_, ?_, ?_, ?_, ?_, ?_⟩
    -- expression
    · intro st h hf
      simp only [expression]
      exact ihT st h (by omega)
    -- term
    · intro st h hf
      simp only [term]
      rcases ihF st h (by omega) with ⟨e, st', hok, htok, hlt, hwf⟩ | ⟨er, herr⟩
      · simp only [hok]
        have hrem : rem st' + 1 ≤ rem st := by
          rw [hremEq, hremEq, htok]
          have h1 := h.1
          omega
        rcases ihTL st' e hwf (by omega) with ⟨e2, st2, hok2, htok2, hle2, hwf2⟩ | ⟨er, herr2⟩
        · exact Or.inl ⟨e2, st2, hok2, by rw [htok2, htok], by omega, hwf2⟩
        · exact Or.inr ⟨er, herr2⟩
      · simp only [herr]
        exact Or.inr ⟨er, rfl⟩
    -- factor
    · intro st h hf
      simp only [factor]
      rcases ihU st h (by omega) with ⟨e, st', hok, htok, hlt, hwf⟩ | ⟨er, herr⟩
      · simp only [hok]
        have hrem : rem st' + 1 ≤ rem st := by
          rw [hremEq, hremEq, htok]
          have h1 := h.1
          omega
        rcases ihFL st' e hwf (by omega) with ⟨e2, st2, hok2, htok2, hle2, hwf2⟩ | ⟨er, herr2⟩
        · exact Or.inl ⟨e2, st2, hok2, by rw [htok2, htok], by omega, hwf2⟩
        · exact Or.inr ⟨er, herr2⟩
      · simp only [herr]
        exact Or.inr ⟨er, rfl⟩
    -- unary
    · intro st h hf
      simp only [unary]
      rcases match_tokens_wf h [TokenType.Minus, TokenType.Bang] with hfalse |
        ⟨hmt, hwf1, hlt1, tok, htok, k, hk, hsk⟩
      · simp only [hfalse]
        exact ihP st h (by omega)
      · simp only [hmt]
        have hprev : previous { st with current := st.current + 1 } = some tok := by
          simp [previous, htok]
        simp only [hprev]
        have hops : tok.token_type = TokenType.Minus ∨ tok.token_type = TokenType.Bang := by
          simp only [List.mem_cons, List.not_mem_nil, or_false, List.mem_singleton] at hk
          rcases hk with rfl | rfl
          · exact Or.inl (sameKind_minus.mp hsk)
          · exact Or.inr (sameKind_bang.mp hsk)
        have h1 := h.1
        rcases hops with hop | hop <;>
        · simp only [hop]
          rcases ihU _ hwf1 (by rw [hremBump]; rw [hremEq] at hf; omega) with
            ⟨opd, st2, hok2, htok2, hlt2, hwf2⟩ | ⟨er, herr⟩
          · simp only [hok2]
            have hlt2' : st.current + 1 < st2.current := hlt2
            have htok2' : st2.tokens = st.tokens := htok2
            exact Or.inl ⟨_, st2, rfl, htok2', by omega, hwf2⟩
          · simp only [herr]
            exact Or.inr ⟨er, rfl⟩
    -- primary
    · intro st h hf
      rcases hae : is_at_end st with _ | b
      · exact absurd hae (by rw [is_at_end_eq h]; simp)
      cases b
      · -- not at end
        simp only [primary, hae]
        have htok := peek_some h
        simp only [htok]
        have h1 := h.1
        cases htt : (st.tokens.get ⟨st.current, h.1⟩).token_type
        case Number n =>
          simp only [advance_eq h hae]
          exact Or.inl ⟨_, _, rfl, rfl, Nat.lt_succ_self _, wf_advance h hae⟩
        case String s =>
          simp only [advance_eq h hae]
          exact Or.inl ⟨_, _, rfl, rfl, Nat.lt_succ_self _, wf_advance h hae⟩
        case True =>
          simp only [advance_eq h hae]
          exact Or.inl ⟨_, _, rfl, rfl, Nat.lt_succ_self _, wf_advance h hae⟩
        case False =>
          simp only [advance_eq h hae]
          exact Or.inl ⟨_, _, rfl, rfl, Nat.lt_succ_self _, wf_advance h hae⟩
        case LeftParen =>
          simp only [advance_eq h hae]
          have hwf1 := wf_advance h hae
          rcases ihE _ hwf1 (by rw [hremBump]; rw [hremEq] at hf; omega) with
            ⟨e, st2, hok2, htok2, hlt2, hwf2⟩ | ⟨er, herr⟩
          · simp only [hok2]
            have hlt2' : st.current + 1 < st2.current := hlt2
            have htok2' : st2.tokens = st.tokens := htok2
            rcases hae2 : is_at_end st2 with _ | b2
            · exact absurd hae2 (by rw [is_at_end_eq hwf2]; simp)
            cases b2
            · have hchk := check_eq_of_false hwf2 hae2 TokenType.RightParen
              by_cases hyes :
                  sameKind (st2.tokens.get ⟨st2.current, hwf2.1⟩).token_type
                    TokenType.RightParen = true
              · have hcons : consume st2 TokenType.RightParen "Expected ')' after expression" =
                    some (.ok (st2.tokens.get ⟨st2.current, hwf2.1⟩,
                               { st2 with current := st2.current + 1 })) := by
                  simp only [consume, hchk, hyes, advance_eq hwf2 hae2]
                simp only [hcons]
                refine Or.inl ⟨_, _, rfl, htok2', ?_, wf_advance hwf2 hae2⟩
                have hc3 : ({ st2 with current := st2.current + 1 } : Parser).current =
                    st2.current + 1 := rfl
                omega
              · have hno := Bool.eq_false_iff.mpr hyes
                have hcons : consume st2 TokenType.RightParen "Expected ')' after expression" =
                    some (.error { message := "Expected ')' after expression",
                                   line := (st2.tokens.get ⟨st2.current, hwf2.1⟩).line,
                                   column := (st2.tokens.get ⟨st2.current, hwf2.1⟩).column }) := by
                  simp only [consume, hchk, hno, error_wf (peek_some hwf2)]
                simp only [hcons]
                exact Or.inr ⟨_, rfl⟩
            · have hchk := check_eq_of_true hae2 TokenType.RightParen
              have hcons : consume st2 TokenType.RightParen "Expected ')' after expression" =
                  some (.error { message := "Expected ')' after expression",
                                 line := (st2.tokens.get ⟨st2.current, hwf2.1⟩).line,
                                 column := (st2.tokens.get ⟨st2.current, hwf2.1⟩).column }) := by
                simp only [consume, hchk, error_wf (peek_some hwf2)]
              simp only [hcons]
              exact Or.inr ⟨_, rfl⟩
          · simp only [herr]
            exact Or.inr ⟨er, rfl⟩
        all_goals
          simp only [error_wf htok]
          exact Or.inr ⟨_, rfl⟩
      · -- at end: "Unexpected end of input"
        simp only [primary, hae, error_wf (peek_some h)]
        exact Or.inr ⟨_, rfl⟩
    -- term_loop
    · intro st e0 h hf
      simp only [term_loop]
      rcases match_tokens_wf h [TokenType.Plus, TokenType.Minus] with hfalse |
        ⟨hmt, hwf1, hlt1, tok, htok, k, hk, hsk⟩
      · simp only [hfalse]
        exact Or.inl ⟨e0, st, rfl, rfl, Nat.le_refl _, h⟩
      · simp only [hmt]
        have hprev : previous { st with current := st.current + 1 } = some tok := by
          simp [previous, htok]
        simp only [hprev]
        have hops : tok.token_type = TokenType.Plus ∨ tok.token_type = TokenType.Minus := by
          simp only [List.mem_cons, List.not_mem_nil, or_false, List.mem_singleton] at hk
          rcases hk with rfl | rfl
          · exact Or.inl (sameKind_plus.mp hsk)
          · exact Or.inr (sameKind_minus.mp hsk)
        have h1 := h.1
        rcases hops with hop | hop <;>
        · simp only [hop]
          rcases ihF _ hwf1 (by rw [hremBump]; rw [hremEq] at hf; omega) with
            ⟨right, st2, hok2, htok2, hlt2, hwf2⟩ | ⟨er, herr⟩
          · simp only [hok2]
            have hlt2' : st.current + 1 < st2.current := hlt2
            have htok2' : st2.tokens = st.tokens := htok2
            have hrem2 : rem st2 + 2 ≤ rem st := by
              rw [hremEq, hremEq, htok2']
              have hw := hwf2.1
              rw [htok2'] at hw
              omega
            rcases ihTL st2 _ hwf2 (by rw [hremEq]; rw [hremEq] at hf; rw [hremEq, hremEq] at hrem2; omega) with
              ⟨e2, st3, hok3, htok3, hle3, hwf3⟩ | ⟨er, herr3⟩
            · exact Or.inl ⟨e2, st3, hok3, by rw [htok3, htok2'], by omega, hwf3⟩
            · exact Or.inr ⟨er, herr3⟩
          · simp only [herr]
            exact Or.inr ⟨er, rfl⟩
    -- factor_loop
    · intro st e0 h hf
      simp only [factor_loop]
      rcases match_tokens_wf h [TokenType.Star, TokenType.Slash] with hfalse |
        ⟨hmt, hwf1, hlt1, tok, htok, k, hk, hsk⟩
      · simp only [hfalse]
        exact Or.inl ⟨e0, st, rfl, rfl, Nat.le_refl _, h⟩
      · simp only [hmt]
        have hprev : previous { st with current := st.current + 1 } = some tok := by
          simp [previous, htok]
        simp only [hprev]
        have hops : tok.token_type = TokenType.Star ∨ tok.token_type = TokenType.Slash := by
          simp only [List.mem_cons, List.not_mem_nil, or_false, List.mem_singleton] at hk
          rcases hk with rfl | rfl
          · exact Or.inl (sameKind_star.mp hsk)
          · exact Or.inr (sameKind_slash.mp hsk)
        have h1 := h.1
        rcases hops with hop | hop <;>
        · simp only [hop]
          rcases ihU _ hwf1 (by rw [hremBump]; rw [hremEq] at hf; omega) with
            ⟨right, st2, hok2, htok2, hlt2, hwf2⟩ | ⟨er, herr⟩
          · simp only [hok2]
            have hlt2' : st.current + 1 < st2.current := hlt2
            have htok2' : st2.tokens = st.tokens := htok2
            have hrem2 : rem st2 + 2 ≤ rem st := by
              rw [hremEq, hremEq, htok2']
              have hw := hwf2.1
              rw [htok2'] at hw
              omega
            rcases ihFL st2 _ hwf2 (by rw [hremEq]; rw [hremEq] at hf; rw [hremEq, hremEq] at hrem2; omega) with
              ⟨e2, st3, hok3, htok3, hle3, hwf3⟩ | ⟨er, herr3⟩
            · exact Or.inl ⟨e2, st3, hok3, by rw [htok3, htok2'], by omega, hwf3⟩
            · exact Or.inr ⟨er, herr3⟩
          · simp only [herr]
            exact Or.inr ⟨er, rfl⟩

end Parser

/-! ## Claim theorems -/

/-- C2: on every input on which `scan` succeeds, the returned token sequence
is non-empty, its last element is the `Eof` token, and `Eof` occurs exactly
once in the sequence. -/
theorem scan_ok_eof_invariant (s : Str) (ts : List Token) (h : scan s = .ok ts) :
    ts ≠ [] ∧ (ts.getLast?).map Token.token_type = some TokenType.Eof ∧
      ts.countP (fun t => decide (t.token_type = TokenType.Eof)) = 1 := by
  obtain ⟨Δ, last, hts, hlast, hgood⟩ := Lexer.scanGo_ok_structure _ _ _ h
  have hts' : ts = Δ ++ [last] := by simpa using hts
  subst hts'
  refine ⟨by simp, ?_, ?_⟩
  · rw [List.getLast?_concat]
    simp [hlast]
  · rw [List.countP_append]
    have h0 : Δ.countP (fun t => decide (t.token_type = TokenType.Eof)) = 0 := by
      rw [List.countP_eq_zero]
      intro t ht
      simpa using (hgood t ht).1
    have h1 : [last].countP (fun t => decide (t.token_type = TokenType.Eof)) = 1 := by
      simp [List.countP_cons, hlast]
    omega

/-- Witness for C2 at the empty input: `scan ""` succeeds with just `Eof`. -/
theorem scan_ok_eof_invariant_witness :
    ([({ token_type := .Eof, lexeme := "", line := 1, column := 0 } : Token)] ≠
        ([] : List Token)) ∧
      (([({ token_type := .Eof, lexeme := "", line := 1, column := 0 } : Token)].getLast?).map
          Token.token_type = some TokenType.Eof) ∧
      ([({ token_type := .Eof, lexeme := "", line := 1, column := 0 } : Token)].countP
          (fun t => decide (t.token_type = TokenType.Eof)) = 1) :=
  scan_ok_eof_invariant "" _ (by decide)

set_option maxHeartbeats 2000000 in
/-- C3: parsing the token sequence of `"2 + 3 * 4"` yields
`Binary(Add, Number 2, Binary(Mul, Number 3, Number 4))`: multiplication
binds tighter than addition. -/
theorem mul_binds_tighter_than_add :
    scanParse "2 + 3 * 4" =
      .ok (.Binary (.Number 2) .Add (.Binary (.Number 3) .Mul (.Number 4))) := by
  decide

/-- C7: line starts at 1 and increments by one per newline (column resets to
0); column advances by 1 per ordinary character and by exactly 4 per tab; a
token records the position where its first character began (`start_token`
latches line and column+1 before consuming); hence `scan "\t1"`'s number
token is at line 1 column 5, and `scan "1\n2"`'s tokens are at (1,1) and
(2,1). -/
theorem position_tracking_correct :
    (∀ st : Lexer, (Lexer.track_line_column st '\n').line = st.line + 1 ∧
      (Lexer.track_line_column st '\n').column = 0) ∧
    (∀ st : Lexer, (Lexer.track_line_column st '\t').column = st.column + 4 ∧
      (Lexer.track_line_column st '\t').line = st.line) ∧
    (∀ (st : Lexer) (c : Char), c ≠ '\n' → c ≠ '\t' →
      (Lexer.track_line_column st c).column = st.column + 1 ∧
      (Lexer.track_line_column st c).line = st.line) ∧
    (∀ st : Lexer, (Lexer.start_token st).token_start_line = st.line ∧
      (Lexer.start_token st).token_start_column = st.column + 1) ∧
    scan "\t1" = .ok [{ token_type := .Number 1, lexeme := "1", line := 1, column := 5 },
                      { token_type := .Eof, lexeme := "", line := 1, column := 5 }] ∧
    scan "1\n2" = .ok [{ token_type := .Number 1, lexeme := "1", line := 1, column := 1 },
                       { token_type := .Number 2, lexeme := "2", line := 2, column := 1 },
                       { token_type := .Eof, lexeme := "", line := 2, column := 1 }] := by
  refine ⟨?_, ?_, ?_, ?_, by decide, by decide⟩
  · intro st
    constructor <;> simp [Lexer.track_line_column]
  · intro st
    constructor <;> simp [Lexer.track_line_column]
  · intro st c h1 h2
    constructor <;> simp [Lexer.track_line_column, h1, h2]
  · intro st
    exact ⟨rfl, rfl⟩

/-- Witness for C7: the ordinary-character rule applied at a concrete state
and character. -/
theorem position_tracking_correct_witness :
    (Lexer.track_line_column ⟨[], [], [], 1, 0, 1, 1⟩ 'x').column = 0 + 1 ∧
      (Lexer.track_line_column ⟨[], [], [], 1, 0, 1, 1⟩ 'x').line = 1 :=
  position_tracking_correct.2.2.1 ⟨[], [], [], 1, 0, 1, 1⟩ 'x' (by decide) (by decide)

/-- C5: on every non-empty, `Eof`-terminated token sequence, `parse` returns
a value — `Ok` or `Err` — and never panics on an out-of-bounds token index
(the `crash` outcome, which models every such panic, is impossible). -/
theorem parse_total_on_eof_terminated (ts : List Token) (last : Token)
    (hlast : ts.getLast? = some last) (heof : last.token_type = .Eof) :
    parse ts ≠ .crash ∧ ((∃ e, parse ts = .ok e) ∨ (∃ er, parse ts = .err er)) := by
  have hne : ts ≠ [] := by
    intro hcon
    rw [hcon] at hlast
    simp at hlast
  have hlen : 0 < ts.length := List.length_pos.mpr hne
  have hwf : Parser.Wf ⟨ts, 0⟩ := ⟨hlen, last, hlast, heof⟩
  have hrem : Parser.rem ⟨ts, 0⟩ = ts.length := by simp [Parser.rem]
  have hfuel : 6 * Parser.rem ⟨ts, 0⟩ + 5 ≤ 6 * ts.length + 6 := by
    rw [hrem]
    omega
  rcases (Parser.fuel_good (6 * ts.length + 6)).1 ⟨ts, 0⟩ hwf hfuel with
    ⟨e, st', hok, _, _, _⟩ | ⟨er, herr⟩
  · exact ⟨by simp [parse, hok], Or.inl ⟨e, by simp [parse, hok]⟩⟩
  · exact ⟨by simp [parse, herr], Or.inr ⟨er, by simp [parse, herr]⟩⟩

/-- Witness for C5 at the one-token sequence `[Eof]`. -/
theorem parse_total_on_eof_terminated_witness :
    parse [({ token_type := .Eof, lexeme := "", line := 1, column := 0 } : Token)] ≠
        .crash ∧
      ((∃ e, parse [({ token_type := .Eof, lexeme := "", line := 1, column := 0 } : Token)] =
          .ok e) ∨
       (∃ er, parse [({ token_type := .Eof, lexeme := "", line := 1, column := 0 } : Token)] =
          .err er)) :=
  parse_total_on_eof_terminated
    [({ token_type := .Eof, lexeme := "", line := 1, column := 0 } : Token)]
    { token_type := .Eof, lexeme := "", line := 1, column := 0 } (by decide) (by decide)

/-- C8: a double quote opening a string literal with no closing quote before
end of input makes `scan` fail with exactly the message "Invalid String",
positioned at the opening quote (start-of-token line and column), however
many lines the unterminated text spans; no token list is returned. -/
theorem unterminated_string_error :
    (∀ (st : Lexer) (rest : List Char), st.chars = '"' :: rest → '"' ∉ rest →
      Lexer.next_token st =
        .err { message := "Invalid String", line := st.line, column := st.column + 1 }) ∧
    (∀ rest : List Char, '"' ∉ rest →
      scan (String.mk ('"' :: rest)) =
        .err { message := "Invalid String", line := 1, column := 1 }) := by
  have part1 : ∀ (st : Lexer) (rest : List Char), st.chars = '"' :: rest → '"' ∉ rest →
      Lexer.next_token st =
        .err { message := "Invalid String", line := st.line, column := st.column + 1 } := by
    intro st rest hch hq
    rw [Lexer.next_token_cons hch, Lexer.dispatch_quote]
    have hch1 : (Lexer.consumeStep (Lexer.start_token st) '"' rest).chars = rest := by simp
    have hloop : Lexer.string_loop (Lexer.consumeStep (Lexer.start_token st) '"' rest) =
        Lexer.string_go rest (Lexer.consumeStep (Lexer.start_token st) '"' rest) := by
      rw [Lexer.string_loop, hch1]
    have hgo := Lexer.string_go_no_quote hq (Lexer.consumeStep (Lexer.start_token st) '"' rest)
    rcases hsg : Lexer.string_go rest (Lexer.consumeStep (Lexer.start_token st) '"' rest) with
      ⟨fb, sb⟩
    rw [hsg] at hgo
    simp only at hgo
    obtain ⟨hfb, hsl, hsc⟩ := hgo
    subst hfb
    rw [hloop, hsg]
    simp only [Lexer.new_error]
    rw [hsl, hsc]
    simp
  refine ⟨part1, ?_⟩
  intro rest hq
  show Lexer.scanGo (('"' :: rest).length + 1) ⟨[], [], '"' :: rest, 1, 0, 1, 1⟩ = _
  rw [show ('"' :: rest).length + 1 = (rest.length + 1) + 1 from by simp]
  simp only [Lexer.scanGo]
  rw [part1 ⟨[], [], '"' :: rest, 1, 0, 1, 1⟩ rest rfl hq]

/-- Witness for C8: an unterminated string spanning two lines. -/
theorem unterminated_string_error_witness :
    scan (String.mk ('"' :: "ab\ncd".data)) =
      .err { message := "Invalid String", line := 1, column := 1 } :=
  unterminated_string_error.2 "ab\ncd".data (by decide)

/-- C10: the scanner has no dispatch arm for `=`: whenever `=` begins a
token, `scan` fails with "Unexpected Token: =" (so `scan "=="` fails at line
1 column 1), and consequently no successful scan ever contains an
`EqualEqual` token even though the vocabulary defines that kind. -/
theorem equal_equal_never_lexed :
    scan "==" = .err { message := "Unexpected Token: =", line := 1, column := 1 } ∧
    (∀ (st : Lexer) (rest : List Char), st.chars = '=' :: rest →
      Lexer.next_token st =
        .err { message := "Unexpected Token: =", line := st.line, column := st.column + 1 }) ∧
    (∀ (s : Str) (ts : List Token), scan s = .ok ts →
      ∀ t ∈ ts, t.token_type ≠ .EqualEqual) := by
  refine ⟨by decide, ?_, ?_⟩
  · intro st rest hch
    rw [Lexer.next_token_cons hch, Lexer.dispatch_eq_char]
    simp [Lexer.new_error]
  · intro s ts h t ht
    obtain ⟨Δ, last, hts, hlast, hgood⟩ := Lexer.scanGo_ok_structure _ _ _ h
    have hts' : ts = Δ ++ [last] := by simpa using hts
    subst hts'
    rcases List.mem_append.mp ht with hm | hm
    · exact (hgood t hm).2
    · have : t = last := by simpa using hm
      subst this
      rw [hlast]
      simp

/-- Witness for C10: the `=`-dispatch failure at a concrete mid-scan state. -/
theorem equal_equal_never_lexed_witness :
    Lexer.next_token ⟨[], [], ['='], 3, 7, 1, 1⟩ =
      .err { message := "Unexpected Token: =", line := 3, column := 7 + 1 } :=
  equal_equal_never_lexed.2.1 ⟨[], [], ['='], 3, 7, 1, 1⟩ [] rfl

namespace Lexer

theorem scanGo_step_true {fuel : Nat} {st st' : Lexer} (h : next_token st = .ok true st') :
    scanGo (fuel + 1) st = scanGo fuel st' := by
  simp only [scanGo, h]

theorem scanGo_step_false {fuel : Nat} {st st' : Lexer} (h : next_token st = .ok false st') :
    scanGo (fuel + 1) st =
      .ok (st'.tokens ++
        [{ token_type := .Eof, lexeme := "", line := st'.line, column := st'.column }]) := by
  simp only [scanGo, h]

theorem scanGo_step_crash {fuel : Nat} {st : Lexer} (h : next_token st = .crash) :
    scanGo (fuel + 1) st = .crash := by
  simp only [scanGo, h]

end Lexer

/-- C1 as stated is false: a run of decimal digits whose value exceeds
`i32::MAX` does not produce a `Result` value — the `parse::<i32>().unwrap()`
in the number arm panics (uncontrolled termination, the `crash` outcome). -/
theorem scan_digit_overflow_panics : scan "9999999999" = Lexer.ScanResult.crash := by
  decide

/-- C1 (amended): `scan` on a non-empty run of decimal digits returns a
`Result` value exactly when the run's value fits in `i32` (then: the number
token and `Eof`); beyond `2147483647` it terminates uncontrolledly instead
of returning an error value. -/
theorem scan_digit_run_characterization (ds : List Char) (hne : ds ≠ [])
    (hdig : ∀ c ∈ ds, c.isDigit = true) :
    scan (String.mk ds) =
      (if Lexer.digitsToNat ds ≤ 2147483647 then
        .ok [{ token_type := .Number (Lexer.digitsToNat ds : Int), lexeme := String.mk ds,
               line := 1, column := 1 },
             { token_type := .Eof, lexeme := "", line := 1, column := ds.length }]
      else .crash) := by
  obtain ⟨d, rest, rfl⟩ : ∃ d rest, ds = d :: rest := by
    cases ds with
    | nil => exact absurd rfl hne
    | cons d rest => exact ⟨d, rest, rfl⟩
  have hd : d.isDigit = true := hdig d (List.mem_cons_self d rest)
  have hrest : ∀ c ∈ rest, c.isDigit = true := fun c hc => hdig c (List.mem_cons_of_mem d hc)
  obtain ⟨hn, htb⟩ := digit_ne_nl_tab hd
  have hstep : Lexer.consumeStep (Lexer.start_token ⟨[], [], d :: rest, 1, 0, 1, 1⟩) d rest =
      ⟨[], [d], rest, 1, 1, 1, 1⟩ := by
    rw [Lexer.consumeStep_plain hn htb]
    rfl
  have hnum : Lexer.number_loop (⟨[], [d], rest, 1, 1, 1, 1⟩ : Lexer) =
      ⟨[], d :: rest, [], 1, 1 + rest.length, 1, 1⟩ := by
    rw [show Lexer.number_loop (⟨[], [d], rest, 1, 1, 1, 1⟩ : Lexer) =
        Lexer.number_go rest ⟨[], [d], rest, 1, 1, 1, 1⟩ from rfl]
    rw [Lexer.number_go_digits hrest _ rfl]
    rfl
  have hnt : Lexer.next_token ⟨[], [], d :: rest, 1, 0, 1, 1⟩ =
      (if Lexer.digitsToNat (d :: rest) ≤ 2147483647 then
        .ok true ⟨[{ token_type := .Number (Lexer.digitsToNat (d :: rest) : Int),
                     lexeme := String.mk (d :: rest), line := 1, column := 1 }],
                  [], [], 1, 1 + rest.length, 1, 1⟩
      else .crash) := by
    rw [Lexer.next_token_cons rfl, hstep, Lexer.dispatch_digit hd, hnum]
    rfl
  show Lexer.scanGo ((d :: rest).length + 1) ⟨[], [], d :: rest, 1, 0, 1, 1⟩ = _
  rw [show (d :: rest).length + 1 = (rest.length + 1) + 1 from by simp]
  by_cases hle : Lexer.digitsToNat (d :: rest) ≤ 2147483647
  · rw [if_pos hle] at hnt ⊢
    rw [Lexer.scanGo_step_true hnt, Lexer.scanGo_step_false (Lexer.next_token_nil rfl)]
    simp [Nat.add_comm]
  · rw [if_neg hle] at hnt ⊢
    rw [Lexer.scanGo_step_crash hnt]

/-- Witness for C1 (amended) at the two-digit run `"42"`. -/
theorem scan_digit_run_characterization_witness :
    scan (String.mk ['4', '2']) =
      (if Lexer.digitsToNat ['4', '2'] ≤ 2147483647 then
        .ok [{ token_type := .Number (Lexer.digitsToNat ['4', '2'] : Int),
               lexeme := String.mk ['4', '2'], line := 1, column := 1 },
             { token_type := .Eof, lexeme := "", line := 1,
               column := (['4', '2'] : List Char).length }]
      else .crash) :=
  scan_digit_run_characterization ['4', '2'] (by decide) (by decide)

/-- C6 as stated is false: removing the interior whitespace of `"123 456"`
merges the two number lexemes, so the emitted token kinds differ from those
of `"123456"`. -/
theorem whitespace_strip_changes_kinds :
    Lexer.kindsOf (scan "123 456") ≠ Lexer.kindsOf (scan "123456") := by
  decide

/-- C6 (amended): whitespace is transparent to token identity where it only
separates scanning from the next token: prepending any run of blanks,
carriage returns, tabs or newlines to an input leaves the emitted token-kind
sequence unchanged (whitespace affects only recorded positions).  Removing
interior whitespace, however, may merge adjacent number or keyword lexemes
and change the tokens, as `"123 456"` versus `"123456"` shows. -/
theorem scan_whitespace_prefix_transparent (w : List Char) (s : Str)
    (hw : ∀ c ∈ w, c = ' ' ∨ c = '\r' ∨ c = '\t' ∨ c = '\n') :
    Lexer.kindsOf (scan (String.mk (w ++ s.data))) = Lexer.kindsOf (scan s) := by
  induction w with
  | nil => rfl
  | cons c w ih =>
    have hc := hw c (List.mem_cons_self c w)
    have hw' : ∀ x ∈ w, x = ' ' ∨ x = '\r' ∨ x = '\t' ∨ x = '\n' :=
      fun x hx => hw x (List.mem_cons_of_mem c hx)
    have hnt : Lexer.next_token ⟨[], [], c :: (w ++ s.data), 1, 0, 1, 1⟩ =
        .ok true (Lexer.consumeStep
          (Lexer.start_token ⟨[], [], c :: (w ++ s.data), 1, 0, 1, 1⟩) c (w ++ s.data)) := by
      rw [Lexer.next_token_cons rfl]
      rcases hc with rfl | rfl | rfl | rfl
      · exact Lexer.dispatch_space _
      · exact Lexer.dispatch_cr _
      · exact Lexer.dispatch_tab _
      · exact Lexer.dispatch_nl _
    show Lexer.kindsOf (Lexer.scanGo ((c :: (w ++ s.data)).length + 1)
        ⟨[], [], c :: (w ++ s.data), 1, 0, 1, 1⟩) = Lexer.kindsOf (scan s)
    rw [show (c :: (w ++ s.data)).length + 1 = ((w ++ s.data).length + 1) + 1 from by simp]
    rw [Lexer.scanGo_step_true hnt]
    have hsame : Lexer.SameScan
        (Lexer.consumeStep (Lexer.start_token ⟨[], [], c :: (w ++ s.data), 1, 0, 1, 1⟩) c
          (w ++ s.data))
        ⟨[], [], w ++ s.data, 1, 0, 1, 1⟩ := ⟨by simp, by simp⟩
    rw [Lexer.scanGo_same _ hsame]
    exact ih hw'

/-- Witness for C6 (amended): a space prepended to `"1"`. -/
theorem scan_whitespace_prefix_transparent_witness :
    Lexer.kindsOf (scan (String.mk ([' '] ++ ("1" : Str).data))) =
      Lexer.kindsOf (scan "1") :=
  scan_whitespace_prefix_transparent [' '] "1" (by decide)

/-- C9: a maximal letter/digit/underscore run starting with a letter or
underscore produces the `And` token when the run is exactly `"and"`, the
`Or` token when it is exactly `"or"`, and otherwise no token and no error —
the identifier is silently discarded; in particular `scan "foo 1"` succeeds
with kinds `[Number 1, Eof]`. -/
theorem identifier_run_behavior :
    (∀ (st : Lexer) (c : Char) (rest : List Char), st.chars = c :: rest →
      (c.isAlpha || decide (c = '_')) = true →
      ∃ st', Lexer.next_token st = .ok true st' ∧
        st'.chars = rest.dropWhile Lexer.identChar ∧
        st'.tokens.map Token.token_type = st.tokens.map Token.token_type ++
          (if c :: rest.takeWhile Lexer.identChar = "and".data then [TokenType.And]
           else if c :: rest.takeWhile Lexer.identChar = "or".data then [TokenType.Or]
           else [])) ∧
    Lexer.kindsOf (scan "foo 1") = some [.Number 1, .Eof] := by
  refine ⟨?_, by decide⟩
  intro st c rest hch halpha
  rw [Lexer.next_token_cons hch, Lexer.dispatch_ident halpha]
  have hil : Lexer.identifier_loop (Lexer.consumeStep (Lexer.start_token st) c rest) =
      { Lexer.consumeStep (Lexer.start_token st) c rest with
        chars := rest.dropWhile Lexer.identChar,
        current_lexeme := (Lexer.consumeStep (Lexer.start_token st) c rest).current_lexeme ++
          rest.takeWhile Lexer.identChar,
        column := (Lexer.consumeStep (Lexer.start_token st) c rest).column +
          (rest.takeWhile Lexer.identChar).length } := by
    rw [show Lexer.identifier_loop (Lexer.consumeStep (Lexer.start_token st) c rest) =
        Lexer.identifier_go ((Lexer.consumeStep (Lexer.start_token st) c rest).chars)
          (Lexer.consumeStep (Lexer.start_token st) c rest) from rfl]
    rw [Lexer.consumeStep_chars]
    exact Lexer.identifier_go_spec rest _ (by simp)
  have hlex : (Lexer.identifier_loop
      (Lexer.consumeStep (Lexer.start_token st) c rest)).current_lexeme =
      c :: rest.takeWhile Lexer.identChar := by
    rw [hil]
    simp
  simp only [hlex]
  by_cases hand : c :: rest.takeWhile Lexer.identChar = "and".data
  · rw [if_pos hand, if_pos hand]
    exact ⟨_, rfl, by simp [hil], by simp [hil]⟩
  rw [if_neg hand, if_neg hand]
  by_cases hor : c :: rest.takeWhile Lexer.identChar = "or".data
  · rw [if_pos hor, if_pos hor]
    exact ⟨_, rfl, by simp [hil], by simp [hil]⟩
  rw [if_neg hor, if_neg hor]
  exact ⟨_, rfl, by simp [hil], by simp [hil]⟩

/-- Witness for C9: the identifier run `"or"` followed by `")"`. -/
theorem identifier_run_behavior_witness :
    ∃ st', Lexer.next_token ⟨[], [], 'o' :: "r)".data, 1, 0, 1, 1⟩ = .ok true st' ∧
      st'.chars = ("r)".data).dropWhile Lexer.identChar ∧
      st'.tokens.map Token.token_type =
        ([] : List Token).map Token.token_type ++
          (if 'o' :: ("r)".data).takeWhile Lexer.identChar = "and".data then [TokenType.And]
           else if 'o' :: ("r)".data).takeWhile Lexer.identChar = "or".data then [TokenType.Or]
           else []) :=
  identifier_run_behavior.1 ⟨[], [], 'o' :: "r)".data, 1, 0, 1, 1⟩ 'o' "r)".data rfl (by decide)

/-- C4: a token sequence beginning with a number literal followed by any
token no production consumes (not `+ - * /`) parses to just that number
with the trailing tokens left unvisited and no error — as with the token
sequence of `"1 > 2"`, which parses to `Number 1`. -/
theorem parse_ignores_trailing_tokens :
    (∀ (numTok t : Token) (rest : List Token) (n : Int),
      numTok.token_type = .Number n →
      Parser.sameKind t.token_type .Plus = false →
      Parser.sameKind t.token_type .Minus = false →
      Parser.sameKind t.token_type .Star = false →
      Parser.sameKind t.token_type .Slash = false →
      parse (numTok :: t :: rest) = .ok (.Number n)) ∧
    scanParse "1 > 2" = .ok (.Number 1) := by
  refine ⟨?_, by decide⟩
  intro numTok t rest n hnum hp hm hs hd
  have hae0 : Parser.is_at_end ⟨numTok :: t :: rest, 0⟩ = some false := by
    simp [Parser.is_at_end, Parser.peek, hnum]
  have hchk0 : ∀ k, Parser.check ⟨numTok :: t :: rest, 0⟩ k =
      some (Parser.sameKind numTok.token_type k) := by
    intro k
    rw [Parser.check, hae0]
    rfl
  have hskM : Parser.sameKind numTok.token_type .Minus = false := by
    rw [hnum]
    simp [Parser.sameKind, Parser.kindIdx]
  have hskB : Parser.sameKind numTok.token_type .Bang = false := by
    rw [hnum]
    simp [Parser.sameKind, Parser.kindIdx]
  have hmt0 : Parser.match_tokens ⟨numTok :: t :: rest, 0⟩ [.Minus, .Bang] =
      some (false, ⟨numTok :: t :: rest, 0⟩) := by
    simp only [Parser.match_tokens, hchk0, hskM, hskB]
  have hadv0 : Parser.advance ⟨numTok :: t :: rest, 0⟩ =
      some (numTok, ⟨numTok :: t :: rest, 1⟩) := by
    simp [Parser.advance, hae0, Parser.previous]
  have hae1 : Parser.is_at_end ⟨numTok :: t :: rest, 1⟩ =
      some (decide (t.token_type = TokenType.Eof)) := by
    simp [Parser.is_at_end, Parser.peek]
  have hchk1 : ∀ k, Parser.sameKind t.token_type k = false →
      Parser.check ⟨numTok :: t :: rest, 1⟩ k = some false := by
    intro k hk
    rw [Parser.check, hae1]
    cases hdec : decide (t.token_type = TokenType.Eof)
    · simp [hk]
    · rfl
  have hmtPM : Parser.match_tokens ⟨numTok :: t :: rest, 1⟩ [.Plus, .Minus] =
      some (false, ⟨numTok :: t :: rest, 1⟩) := by
    simp only [Parser.match_tokens, hchk1 _ hp, hchk1 _ hm]
  have hmtSS : Parser.match_tokens ⟨numTok :: t :: rest, 1⟩ [.Star, .Slash] =
      some (false, ⟨numTok :: t :: rest, 1⟩) := by
    simp only [Parser.match_tokens, hchk1 _ hs, hchk1 _ hd]
  have hprim : ∀ F : Nat, Parser.primary (F + 1) ⟨numTok :: t :: rest, 0⟩ =
      .ok (.Number n) ⟨numTok :: t :: rest, 1⟩ := by
    intro F
    simp only [Parser.primary, hae0, List.getElem?_cons_zero, hnum, hadv0]
  have hun : ∀ F : Nat, Parser.unary (F + 2) ⟨numTok :: t :: rest, 0⟩ =
      .ok (.Number n) ⟨numTok :: t :: rest, 1⟩ := by
    intro F
    rw [show F + 2 = (F + 1) + 1 from rfl]
    simp only [Parser.unary, hmt0]
    exact hprim F
  have hfl : ∀ F : Nat, Parser.factor_loop (F + 1) (.Number n) ⟨numTok :: t :: rest, 1⟩ =
      .ok (.Number n) ⟨numTok :: t :: rest, 1⟩ := by
    intro F
    simp only [Parser.factor_loop, hmtSS]
  have hfac : ∀ F : Nat, Parser.factor (F + 3) ⟨numTok :: t :: rest, 0⟩ =
      .ok (.Number n) ⟨numTok :: t :: rest, 1⟩ := by
    intro F
    rw [show F + 3 = (F + 2) + 1 from rfl]
    simp only [Parser.factor, hun F]
    exact hfl (F + 1)
  have htl : ∀ F : Nat, Parser.term_loop (F + 1) (.Number n) ⟨numTok :: t :: rest, 1⟩ =
      .ok (.Number n) ⟨numTok :: t :: rest, 1⟩ := by
    intro F
    simp only [Parser.term_loop, hmtPM]
  have hterm : ∀ F : Nat, Parser.term (F + 4) ⟨numTok :: t :: rest, 0⟩ =
      .ok (.Number n) ⟨numTok :: t :: rest, 1⟩ := by
    intro F
    rw [show F + 4 = (F + 3) + 1 from rfl]
    simp only [Parser.term, hfac F]
    exact htl (F + 2)
  have hexp : ∀ F : Nat, Parser.expression (F + 5) ⟨numTok :: t :: rest, 0⟩ =
      .ok (.Number n) ⟨numTok :: t :: rest, 1⟩ := by
    intro F
    rw [show F + 5 = (F + 4) + 1 from rfl]
    simp only [Parser.expression]
    exact hterm F
  simp only [parse]
  rw [show 6 * (numTok :: t :: rest).length + 6 = (6 * rest.length + 13) + 5 from by
    simp only [List.length_cons]
    ring]
  rw [hexp (6 * rest.length + 13)]

/-- Witness for C4 at the token sequence of `"1 > 2"`. -/
theorem parse_ignores_trailing_tokens_witness :
    parse [{ token_type := .Number 1, lexeme := "1", line := 1, column := 1 },
           { token_type := .Greater, lexeme := ">", line := 1, column := 3 },
           { token_type := .Number 2, lexeme := "2", line := 1, column := 5 },
           { token_type := .Eof, lexeme := "", line := 1, column := 5 }] =
      .ok (.Number 1) :=
  parse_ignores_trailing_tokens.1
    { token_type := .Number 1, lexeme := "1", line := 1, column := 1 }
    { token_type := .Greater, lexeme := ">", line := 1, column := 3 }
    [{ token_type := .Number 2, lexeme := "2", line := 1, column := 5 },
     { token_type := .Eof, lexeme := "", line := 1, column := 5 }] 1
    rfl (by decide) (by decide) (by decide) (by decide)
